import Mathlib

/-!
# tihall: a presence registry on top of a SQL table

Shallow embedding of `tihall.go`.  The package keeps three globals (`db`,
`updateQ`, `hallName`) and talks to a MySQL server through `database/sql`.
The embedding threads these through an explicit `World`:

* the package globals, with `db = none` for the nil pointer;
* the tables held by the server, addressed by table name;
* the goroutines started so far (heartbeat workers and per-name emitters).

Times are whole seconds (the resolution of a `DATETIME` column and of `NOW()`),
durations are nanoseconds as in Go's `time.Duration`.  Every call that reaches
the server takes an `Env`: the server clock at that call and the error, if any,
with which the driver fails it.  A function that dereferences the nil `db`
panics in Go; here it returns `none`.  Calls to the logger and to `fmt.Println`
have no effect on the state modelled and are left out.
-/

namespace Tihall

/-! ## Data model -/

/-- Errors seen by the package: its own `ErrNameExists`, the two `database/sql`
errors the code can meet, and server or driver errors by MySQL error number
(1062 duplicate key, 1146 unknown table, anything else for a lost connection). -/
inductive Err where
  | ErrNameExists
  | ErrNoRows
  | ErrDBClosed
  | mysql (code : Nat)
  deriving DecidableEq, Repr

/-- One row of a `hall_*` table: `name` is the primary key. -/
structure Row where
  name : String
  content : String
  last_alive : Int
  deriving DecidableEq, Repr

/-- Rows of one table, in storage order. -/
abbrev Table := List Row

/-- Tables of the server by table name; `none` when the table does not exist. -/
abbrev Tables := String → Option Table

/-- The value behind a non-nil `*sql.DB`. -/
structure Handle where
  dsn : String
  closed : Bool
  deriving DecidableEq, Repr

/-- Circumstances of one call to the server: the value of `NOW()` and the error
with which the call fails before reaching the tables, if it does. -/
structure Env where
  now : Int
  fault : Option Err
  deriving DecidableEq, Repr

/-- Package globals, server tables and goroutines started.  The field `updateCalls` is not
a variable of the code: it records the argument of every call of `update`, oldest first,
so that statements can speak of the calls made. -/
structure World where
  db : Option Handle
  updateQ : Option Nat
  hallName : String
  tables : Tables
  workers : Nat
  emitters : List String
  updateCalls : List (List String)

/-! ## Constants -/

/-- One second as a `time.Duration`. -/
def Second : Int := 1000000000

def MAX_BATCH_SIZE : Nat := 100

def MAX_IDLE_TIME : Int := 5 * Second

def INACTIVE_THRESHOLD : Int := 2 * MAX_IDLE_TIME

/-- The method `Duration.Seconds`, on durations of whole seconds. -/
def Seconds (d : Int) : Int := d / Second

/-! ## Statements and their meaning on the server -/

/-- The data-changing statements the package sends. -/
inductive Stmt where
  | createTable (table : String)
  | deleteStale (table : String) (secs : Int)
  | updateAlive (table : String) (name : String)
  | insertRow (table : String) (name : String) (content : String)
  | deleteName (table : String) (name : String)
  deriving DecidableEq, Repr

/-- The reading statements the package sends. -/
inductive Query where
  | selectNames (table : String)
  | selectAlive (table : String) (name : String) (secs : Int)
  deriving DecidableEq, Repr

/-- A cell of a result set. -/
inductive Value where
  | text (s : String)
  | datetime (t : Int)
  deriving DecidableEq, Repr

/-- Table name spliced into every statement by `fmt.Sprintf("... hall_%s ...")`. -/
def tableName (hall : String) : String := "hall_" ++ hall

/-- Characters of an unquoted SQL identifier: ASCII letters and digits, `$`, `_`, and the
characters from U+0080 to U+FFFF. -/
def identChar (c : Char) : Bool :=
  c.isAlphanum || c == '$' || c == '_' || (decide (128 ≤ c.toNat) && decide (c.toNat ≤ 65535))

/-- Table names the server accepts unquoted: identifier characters only, at most 64 of
them.  Anything else spliced into a statement is answered with a syntax error. -/
def validTable (t : String) : Bool :=
  decide (t.length ≤ 64) && t.toList.all identChar

/-- Longest `name` the column `name VARCHAR(255)` of `Init` holds, in characters. -/
def NAME_MAX : Nat := 255

/-- Longest `content` the column `content TEXT` of `Init` holds, in bytes. -/
def CONTENT_MAX : Nat := 65535

/-- Effect of a data-changing statement on the tables at server time `now`.  The table is
the one `Init` creates: `name VARCHAR(255)` as primary key, `content TEXT`, `last_alive
DATETIME`, on a server in strict mode that compares names exactly.  Error numbers: 1064
syntax error, 1146 unknown table, 1406 data too long for a column, 1062 duplicate key.
A table that exists has a name the server accepted, so only `CREATE TABLE` checks it. -/
def applyStmt (now : Int) (ts : Tables) : Stmt → Except Err Tables
  | .createTable t =>
    if validTable t then
      match ts t with
      | some _ => .ok ts
      | none => .ok (Function.update ts t (some []))
    else .error (.mysql 1064)
  | .deleteStale t secs =>
    match ts t with
    | none => .error (.mysql 1146)
    | some rows =>
      .ok (Function.update ts t (some (rows.filter fun r => !decide (r.last_alive < now - secs))))
  | .updateAlive t name =>
    match ts t with
    | none => .error (.mysql 1146)
    | some rows =>
      .ok (Function.update ts t
        (some (rows.map fun r => if r.name = name then { r with last_alive := now } else r)))
  | .insertRow t name content =>
    match ts t with
    | none => .error (.mysql 1146)
    | some rows =>
      if name.length > NAME_MAX ∨ content.utf8ByteSize > CONTENT_MAX then .error (.mysql 1406)
      else if rows.any (fun r => decide (r.name = name)) then .error (.mysql 1062)
      else .ok (Function.update ts t (some (rows ++ [{ name := name, content := content, last_alive := now }])))
  | .deleteName t name =>
    match ts t with
    | none => .error (.mysql 1146)
    | some rows => .ok (Function.update ts t (some (rows.filter fun r => !decide (r.name = name))))

/-- Result set of a reading statement at server time `now`. -/
def runQuery (now : Int) (ts : Tables) : Query → Except Err (List Value)
  | .selectNames t =>
    match ts t with
    | none => .error (.mysql 1146)
    | some rows => .ok (rows.map fun r => Value.text r.name)
  | .selectAlive t name secs =>
    match ts t with
    | none => .error (.mysql 1146)
    | some rows =>
      .ok ((rows.filter fun r => decide (r.name = name) && decide (r.last_alive > now - secs)).map
        fun r => Value.datetime r.last_alive)

/-! ## database/sql -/

/-- The call `db.Exec(stmt, args...)` on a non-nil handle. -/
def dbExec (h : Handle) (e : Env) (ts : Tables) (s : Stmt) : Except Err Tables :=
  if h.closed then .error .ErrDBClosed
  else
    match e.fault with
    | some err => .error err
    | none => applyStmt e.now ts s

/-- The call `db.Query(stmt, args...)` on a non-nil handle. -/
def dbQuery (h : Handle) (e : Env) (ts : Tables) (q : Query) : Except Err (List Value) :=
  if h.closed then .error .ErrDBClosed
  else
    match e.fault with
    | some err => .error err
    | none => runQuery e.now ts q

/-- A transaction in progress: the tables as the transaction sees them and the
statements it has executed. -/
structure Tx where
  tables : Tables
  stmts : List Stmt

/-- The call `db.Begin()` on a non-nil handle. -/
def dbBegin (h : Handle) (e : Env) (ts : Tables) : Except Err Tx :=
  if h.closed then .error .ErrDBClosed
  else
    match e.fault with
    | some err => .error err
    | none => .ok { tables := ts, stmts := [] }

/-- The call `tx.Exec(stmt, args...)`. -/
def txExec (tx : Tx) (e : Env) (s : Stmt) : Except Err Tx :=
  match e.fault with
  | some err => .error err
  | none =>
    match applyStmt e.now tx.tables s with
    | .error err => .error err
    | .ok ts => .ok { tables := ts, stmts := tx.stmts ++ [s] }

/-- The call `tx.Commit()`: the tables of the transaction become the tables of the server. -/
def txCommit (tx : Tx) (e : Env) : Except Err Tables :=
  match e.fault with
  | some err => .error err
  | none => .ok tx.tables

/-- The call `rows.Scan(&name)` with a string destination. -/
def Scan : Value → Except Err String
  | .text s => .ok s
  | .datetime t => .ok (toString t)

/-- The call `db.Exec` through the global `db`; the tables are kept on error, and the
result is `none` when `db` is nil. -/
def World.exec (w : World) (e : Env) (s : Stmt) : Option (Option Err × World) :=
  match w.db with
  | none => none
  | some h =>
    match dbExec h e w.tables s with
    | .error err => some (some err, w)
    | .ok ts => some (none, { w with tables := ts })

/-! ## The package -/

/-- The function `Init`.  `openErr` is the error of `sql.Open`, if it fails; `e` is the
environment of the `CREATE TABLE` call.  The parameter `hallName` shadows the global
of the same name, which `Init` never assigns. -/
def Init (w : World) (openErr : Option Err) (e : Env) (dsn : String) (hallName : String) :
    Option Err × World :=
  match w.db with
  | some h => (none, { w with db := some { h with closed := true } })
  | none =>
    match openErr with
    | some err => (some err, { w with db := none })
    | none =>
      let h : Handle := { dsn := dsn, closed := false }
      let w1 : World := { w with db := some h }
      match dbExec h e w1.tables (.createTable (tableName hallName)) with
      | .error err => (some err, w1)
      | .ok ts =>
        (none, { w1 with tables := ts, updateQ := some MAX_BATCH_SIZE, workers := w1.workers + 1 })

/-- One iteration of the loop of `GC`, after its sleep: the sweep and the ignored error. -/
def GCsweep (w : World) (e : Env) : Option World :=
  match w.exec e (.deleteStale (tableName w.hallName) (Seconds INACTIVE_THRESHOLD)) with
  | none => none
  | some (_, w1) => some w1

/-- The function `GC` run for as many iterations as there are environments in `ticks`. -/
def GC (w : World) (ticks : List Env) : Option World :=
  ticks.foldlM GCsweep w

/-- The loop `for _, job := range jobs` of `update`; `i` is the index of the next call
in the environment of the transaction. -/
def updateLoop (table : String) (env : Nat → Env) : Nat → List String → Tx → Except Err Tx
  | _, [], tx => .ok tx
  | i, job :: jobs, tx =>
    match txExec tx (env i) (.updateAlive table job) with
    | .error err => .error err
    | .ok tx1 => updateLoop table env (i + 1) jobs tx1

/-- The transaction of `update` as it stands when the loop is over, before `Commit`.
Call 0 of `env` is `Begin`, call `i + 1` the statement of the `i`-th job. -/
def updateTx (h : Handle) (w : World) (env : Nat → Env) (jobs : List String) : Except Err Tx :=
  match dbBegin h (env 0) w.tables with
  | .error err => .error err
  | .ok tx => updateLoop (tableName w.hallName) env 1 jobs tx

/-- The function `update`.  Call `jobs.length + 1` of `env` is `Commit`.  The call is
recorded in `updateCalls` on entry. -/
def update (w : World) (env : Nat → Env) (jobs : List String) : Option (Option Err × World) :=
  let w0 : World := { w with updateCalls := w.updateCalls ++ [jobs] }
  match w.db with
  | none => none
  | some h =>
    match updateTx h w env jobs with
    | .error err => some (some err, w0)
    | .ok tx =>
      match txCommit tx (env (jobs.length + 1)) with
      | .error err => some (some err, w0)
      | .ok ts => some (none, { w0 with tables := ts })

/-- State of `heartbeatWorker` between two iterations: the local `jobs`, the world,
and the argument of each call to `update` made so far, oldest first. -/
structure Worker where
  jobs : List String
  world : World
  flushed : List (List String)

/-- One iteration of the loop of `heartbeatWorker`, for the signal `job` received from
`updateQ`; `env` is the environment of the flush, should there be one. -/
def workerStep (s : Worker) (job : String) (env : Nat → Env) : Option Worker :=
  let jobs := s.jobs ++ [job]
  if jobs.length ≥ MAX_BATCH_SIZE then
    match update s.world env jobs with
    | none => none
    | some (_, w1) => some { jobs := [], world := w1, flushed := s.flushed ++ [jobs] }
  else some { s with jobs := jobs }

/-- The function `heartbeatWorker` on the signals it receives, in arrival order. -/
def heartbeatWorker (w : World) (events : List (String × (Nat → Env))) : Option Worker :=
  events.foldlM (fun s ev => workerStep s ev.1 ev.2) { jobs := [], world := w, flushed := [] }

/-- The function `IsAlive`. -/
def IsAlive (w : World) (e : Env) (name : String) : Option Bool :=
  match w.db with
  | none => none
  | some h =>
    match dbQuery h e w.tables
        (.selectAlive (tableName w.hallName) name (Seconds INACTIVE_THRESHOLD)) with
    | .error _ => some false
    | .ok rows => some (!rows.isEmpty)

/-- The function `Register`: `e1` is the environment of the read of `IsAlive`, `e2` that of
the `INSERT`.  The emitter goroutine is started whatever the `INSERT` returned. -/
def Register (w : World) (e1 e2 : Env) (name : String) (content : String) :
    Option (Option Err × World) :=
  match IsAlive w e1 name with
  | none => none
  | some true => some (some .ErrNameExists, w)
  | some false =>
    match w.exec e2 (.insertRow (tableName w.hallName) name content) with
    | none => none
    | some (err, w1) => some (err, { w1 with emitters := w1.emitters ++ [name] })

/-- The function `Unregister`: `e1` is the environment of the read of `IsAlive`, `e2` that of
the `DELETE`. -/
def Unregister (w : World) (e1 e2 : Env) (name : String) : Option (Option Err × World) :=
  match IsAlive w e1 name with
  | none => none
  | some false => some (none, w)
  | some true =>
    match w.exec e2 (.deleteName (tableName w.hallName) name) with
    | none => none
    | some (err, w1) =>
      if err ≠ none ∧ err ≠ some .ErrNoRows then some (err, w1) else some (none, w1)

/-- The loop `for rows.Next()` of `ListAll`. -/
def scanNames : List Value → List String → Except Err (List String)
  | [], names => .ok names
  | v :: vs, names =>
    match Scan v with
    | .error err => .error err
    | .ok name => scanNames vs (names ++ [name])

/-- The function `ListAll`: the names, or the error. -/
def ListAll (w : World) (e : Env) : Option (Except Err (List String)) :=
  match w.db with
  | none => none
  | some h =>
    match dbQuery h e w.tables (.selectNames (tableName w.hallName)) with
    | .error err => some (.error err)
    | .ok rows => some (scanNames rows [])

/-! ## Sample states -/

/-- The state of a process that has not called `Init`, against an empty server. -/
def fresh : World :=
  { db := none, updateQ := none, hallName := "", tables := fun _ => none,
    workers := 0, emitters := [], updateCalls := [] }

/-- An environment in which the call reaches the server at time `t`. -/
def atTime (t : Int) : Env := { now := t, fault := none }

/-- An initialised registry whose table holds `rows`. -/
def hall (rows : Table) : World :=
  { db := some { dsn := "dsn", closed := false }, updateQ := some MAX_BATCH_SIZE,
    hallName := "", tables := Function.update (fun _ => none) "hall_" (some rows),
    workers := 1, emitters := [], updateCalls := [] }

/-! ## Calls between two points in time -/

/-- A call of one of the functions of the package other than `GC`; `flush` is a call of
`update` by the heartbeat worker. -/
inductive Op where
  | init (openErr : Option Err) (e : Env) (dsn : String) (name : String)
  | register (e1 e2 : Env) (name : String) (content : String)
  | unregister (e1 e2 : Env) (name : String)
  | listAll (e : Env)
  | isAlive (e : Env) (name : String)
  | flush (env : Nat → Env) (jobs : List String)

/-- The world a call leaves; `none` when it panics. -/
def Op.run (w : World) : Op → Option World
  | .init openErr e dsn name => some (Init w openErr e dsn name).2
  | .register e1 e2 name content => (Register w e1 e2 name content).map Prod.snd
  | .unregister e1 e2 name => (Unregister w e1 e2 name).map Prod.snd
  | .listAll e => (ListAll w e).map fun _ => w
  | .isAlive e name => (IsAlive w e name).map fun _ => w
  | .flush env jobs => (update w env jobs).map Prod.snd

/-- The world a sequence of calls leaves, made one after the other. -/
def runOps (w : World) (ops : List Op) : Option World :=
  ops.foldlM Op.run w

/-- A call applies a heartbeat to `n` when it is a flush of a batch that holds `n` and the
transaction commits. -/
def Op.heartbeat (n : String) (w : World) : Op → Bool
  | .flush env jobs =>
    decide (n ∈ jobs) &&
      (match update w env jobs with
       | some (none, _) => true
       | _ => false)
  | _ => false

/-- No call of the sequence, made from `w` on, applies a heartbeat to `n`. -/
def noHeartbeat (n : String) : World → List Op → Bool
  | _, [] => true
  | w, op :: ops =>
    !op.heartbeat n w &&
      (match op.run w with
       | none => true
       | some w1 => noHeartbeat n w1 ops)

/-- Every call to the server that the call makes is made at server time `t` or later. -/
def Op.since (t : Int) : Op → Prop
  | .init _ e _ _ => t ≤ e.now
  | .register e1 e2 _ _ => t ≤ e1.now ∧ t ≤ e2.now
  | .unregister e1 e2 _ => t ≤ e1.now ∧ t ≤ e2.now
  | .listAll e => t ≤ e.now
  | .isAlive e _ => t ≤ e.now
  | .flush env _ => ∀ i, t ≤ (env i).now

/-- The rows of a table stored under the name `n`. -/
def namedRows (n : String) (rows : Table) : Table :=
  rows.filter fun r => decide (r.name = n)

/-! ## The flushes a sequence of signals calls for -/

/-- The full batches of a sequence of signals: block `i` holds the signals at positions
`i * MAX_BATCH_SIZE` to `(i + 1) * MAX_BATCH_SIZE - 1`. -/
def signalBatches (signals : List String) : List (List String) :=
  (List.range (signals.length / MAX_BATCH_SIZE)).map fun i =>
    (signals.drop (i * MAX_BATCH_SIZE)).take MAX_BATCH_SIZE

/-- The environments of the flushes of a sequence of events: flush `i` runs in the
environment that came with the signal that filled batch `i`. -/
def flushEnvs (events : List (String × (Nat → Env))) : List (Nat → Env) :=
  (List.range (events.length / MAX_BATCH_SIZE)).map fun i =>
    (events[(i + 1) * MAX_BATCH_SIZE - 1]?.map Prod.snd).getD (fun _ => ⟨0, none⟩)

/-- The world after calling `update` on each batch in turn, each in its environment, with
the error of each call ignored. -/
def applyFlushes (w : World) : List (List String × (Nat → Env)) → Option World
  | [] => some w
  | (jobs, env) :: rest =>
    match update w env jobs with
    | none => none
    | some (_, w1) => applyFlushes w1 rest

/-! ## Predicates and sample inputs used in the statements -/

/-- The rows that make a name alive at server time `now`. -/
def aliveRow (now : Int) (name : String) (r : Row) : Bool :=
  decide (r.name = name) && decide (r.last_alive > now - Seconds INACTIVE_THRESHOLD)

/-- The rows a sweep at server time `now` keeps. -/
def swept (now : Int) (rows : Table) : Table :=
  rows.filter fun r => !decide (r.last_alive < now - Seconds INACTIVE_THRESHOLD)

/-- The world after a first `Init` with registry name `name` in a process that had not
called it, with `sql.Open` and `CREATE TABLE` succeeding. -/
def initialised (name : String) : World :=
  (Init fresh none (atTime 0) "dsn" name).2

/-- A run of 250 signals of `"a"`: the flush of the first batch reaches the server at time
7, the flush of the second fails on a lost connection (at `Begin`). -/
def beats : List (String × (Nat → Env)) :=
  (List.range 250).map fun i =>
    ("a", fun (_ : Nat) => if i < 100 then atTime 7 else ⟨9, some (Err.mysql 2006)⟩)

/-- A name of 256 characters, one more than the column `name` holds. -/
def longName : String := ⟨List.replicate 256 'a'⟩

/-- A content of 65536 bytes, one more than the column `content` holds. -/
def longContent : String := ⟨List.replicate 65536 'x'⟩

/-- Calls made at times 10 and 11 that apply no heartbeat to `"a"`: a `Register "a"`, an
`Unregister "a"`, a `Register "z"`, a flush for `"b"` and `"z"`, a flush for `"a"` that
fails on a lost connection, a `ListAll` and an `IsAlive "a"`. -/
def quietCalls : List Op :=
  [.register (atTime 10) (atTime 10) "a" "c2",
   .unregister (atTime 10) (atTime 10) "a",
   .register (atTime 10) (atTime 10) "z" "c",
   .flush (fun _ => atTime 11) ["b", "z"],
   .flush (fun _ => ⟨11, some (Err.mysql 2006)⟩) ["a"],
   .listAll (atTime 11),
   .isAlive (atTime 11) "a"]

/-! ## Liveness -/

theorem seconds_threshold : Seconds INACTIVE_THRESHOLD = 10 := by decide

/-- A result set has a first row exactly when some row passes the filter. -/
theorem next_map_filter {α β : Type} (p : α → Bool) (f : α → β) (l : List α) :
    (!((l.filter p).map f).isEmpty) = l.any p := by
  induction l with
  | nil => rfl
  | cons a l ih =>
    cases hp : p a
    · simpa [List.filter_cons, hp] using ih
    · simp [List.filter_cons, hp]

/-- When the read reaches an existing table, `IsAlive` tells whether some row passes the
predicate of its `SELECT`. -/
theorem IsAlive_of_read (w : World) (h : Handle) (e : Env) (name : String) (rows : Table)
    (hdb : w.db = some h) (hopen : h.closed = false) (hok : e.fault = none)
    (htab : w.tables (tableName w.hallName) = some rows) :
    IsAlive w e name = some (rows.any (aliveRow e.now name)) := by
  unfold IsAlive
  simp only [hdb, dbQuery, hopen, hok, runQuery, htab]
  simp only [Bool.false_eq_true, if_false]
  congr 1
  exact next_map_filter _ _ rows

/-- A table passes `List.any (aliveRow now name)` exactly when it has a row of that name
whose `last_alive` is later than `now` minus ten seconds. -/
theorem any_aliveRow (now : Int) (name : String) (rows : Table) :
    rows.any (aliveRow now name) = true ↔
      ∃ r ∈ rows, r.name = name ∧ r.last_alive > now - 10 := by
  simp only [List.any_eq_true, aliveRow, seconds_threshold, Bool.and_eq_true, decide_eq_true_eq]

/-- C1: when the read reaches the table, `IsAlive name` is true exactly when the table has a
row of that name whose `last_alive` is strictly greater than `now - INACTIVE_THRESHOLD`,
that is `now - last_alive < INACTIVE_THRESHOLD`, the threshold being twice `MAX_IDLE_TIME`,
ten seconds; and when the read fails, `IsAlive` is false. -/
theorem IsAlive_spec (w : World) (h : Handle) (e : Env) (name : String) (hdb : w.db = some h) :
    (∀ rows : Table, h.closed = false → e.fault = none →
      w.tables (tableName w.hallName) = some rows →
      (IsAlive w e name = some true ↔
        ∃ r ∈ rows, r.name = name ∧ r.last_alive > e.now - Seconds INACTIVE_THRESHOLD)) ∧
    (∀ err : Err,
      dbQuery h e w.tables
        (.selectAlive (tableName w.hallName) name (Seconds INACTIVE_THRESHOLD)) = .error err →
      IsAlive w e name = some false) ∧
    (∀ r : Row, r.last_alive > e.now - Seconds INACTIVE_THRESHOLD ↔
      e.now - r.last_alive < Seconds INACTIVE_THRESHOLD) ∧
    INACTIVE_THRESHOLD = 2 * MAX_IDLE_TIME ∧ Seconds INACTIVE_THRESHOLD = 10 := by
  refine ⟨?_, ?_, ?_, rfl, seconds_threshold⟩
  · intro rows hopen hok htab
    rw [IsAlive_of_read w h e name rows hdb hopen hok htab, seconds_threshold]
    simp only [Option.some.injEq]
    exact any_aliveRow e.now name rows
  · intro err herr
    unfold IsAlive
    simp only [hdb, herr]
  · intro r
    constructor <;> intro hr <;> omega

/-- C1 at a row registered at time 0: alive at time 9 when the read succeeds, not alive when
the read fails. -/
theorem IsAlive_spec_witness :
    IsAlive (hall [⟨"a", "c", 0⟩]) (atTime 9) "a" = some true ∧
    IsAlive (hall [⟨"a", "c", 0⟩]) ⟨9, some (.mysql 2006)⟩ "a" = some false :=
  ⟨((IsAlive_spec (hall [⟨"a", "c", 0⟩]) ⟨"dsn", false⟩ (atTime 9) "a" rfl).1
      [⟨"a", "c", 0⟩] rfl rfl (by decide)).2 ⟨⟨"a", "c", 0⟩, by simp, rfl, by decide⟩,
   (IsAlive_spec (hall [⟨"a", "c", 0⟩]) ⟨"dsn", false⟩ ⟨9, some (.mysql 2006)⟩ "a" rfl).2.1
      (.mysql 2006) rfl⟩

/-! ## Registration of a name that is alive -/

/-- C2: when `n` is alive at the call, `Register n c2` returns `ErrNameExists` and the world
it leaves is the world it found: the tables are the same, so no row is written and the row
of `n` keeps its content and its `last_alive`, and no emitter is started. -/
theorem Register_alive (w : World) (e1 e2 : Env) (n c2 : String)
    (halive : IsAlive w e1 n = some true) :
    Register w e1 e2 n c2 = some (some Err.ErrNameExists, w) ∧
      ∀ w1 : World, (Register w e1 e2 n c2).map Prod.snd = some w1 →
        w1.tables = w.tables ∧ w1.emitters = w.emitters := by
  have hreg : Register w e1 e2 n c2 = some (some Err.ErrNameExists, w) := by
    unfold Register
    simp only [halive]
  refine ⟨hreg, ?_⟩
  intro w1 hw1
  rw [hreg] at hw1
  simp only [Option.map_some', Option.some.injEq] at hw1
  rw [← hw1]
  exact ⟨rfl, rfl⟩

/-- C2 at a table holding `("a", "c1", 0)`, at time 9. -/
theorem Register_alive_witness :
    Register (hall [⟨"a", "c1", 0⟩]) (atTime 9) (atTime 9) "a" "c2"
        = some (some Err.ErrNameExists, hall [⟨"a", "c1", 0⟩]) ∧
      ∀ w1 : World,
        (Register (hall [⟨"a", "c1", 0⟩]) (atTime 9) (atTime 9) "a" "c2").map Prod.snd = some w1 →
        w1.tables = (hall [⟨"a", "c1", 0⟩]).tables ∧
        w1.emitters = (hall [⟨"a", "c1", 0⟩]).emitters :=
  Register_alive (hall [⟨"a", "c1", 0⟩]) (atTime 9) (atTime 9) "a" "c2" (by decide)

/-! ## Unregistration -/

/-- C5: when `n` is not alive at the call, `Unregister n` returns nil and leaves the world
as it found it. -/
theorem Unregister_not_alive (w : World) (e1 e2 : Env) (n : String)
    (hdead : IsAlive w e1 n = some false) :
    Unregister w e1 e2 n = some (none, w) := by
  unfold Unregister
  simp only [hdead]

/-- C5 at a name whose expired row is still stored, and at a name with no row. -/
theorem Unregister_not_alive_witness :
    Unregister (hall [⟨"a", "c", 0⟩]) (atTime 10) (atTime 10) "a"
      = some (none, hall [⟨"a", "c", 0⟩]) ∧
    Unregister (hall [⟨"a", "c", 0⟩]) (atTime 10) (atTime 10) "b"
      = some (none, hall [⟨"a", "c", 0⟩]) :=
  ⟨Unregister_not_alive (hall [⟨"a", "c", 0⟩]) (atTime 10) (atTime 10) "a" (by decide),
   Unregister_not_alive (hall [⟨"a", "c", 0⟩]) (atTime 10) (atTime 10) "b" (by decide)⟩

/-! ## Reads and writes that reach the table -/

/-- The call `db.Exec` through an open handle, when the driver does not fail it. -/
theorem exec_of_open (w : World) (h : Handle) (e : Env) (s : Stmt)
    (hdb : w.db = some h) (hopen : h.closed = false) (hok : e.fault = none) :
    w.exec e s =
      match applyStmt e.now w.tables s with
      | .error err => some (some err, w)
      | .ok ts => some (none, { w with tables := ts }) := by
  unfold World.exec
  simp only [hdb, dbExec, hopen, hok]
  rfl

/-- A name is alive only through an open handle and an existing table. -/
theorem open_of_alive (w : World) (h : Handle) (e : Env) (n : String)
    (hdb : w.db = some h) (halive : IsAlive w e n = some true) :
    h.closed = false ∧ e.fault = none := by
  unfold IsAlive at halive
  simp only [hdb, dbQuery] at halive
  cases hc : h.closed
  · cases hf : e.fault
    · exact ⟨rfl, rfl⟩
    · simp [hc, hf] at halive
  · simp [hc] at halive

/-- The loop of `ListAll` appends the names of the rows in storage order. -/
theorem scanNames_names (rows : Table) (acc : List String) :
    scanNames (rows.map fun r => Value.text r.name) acc = .ok (acc ++ rows.map Row.name) := by
  induction rows generalizing acc with
  | nil => simp [scanNames]
  | cons r rs ih => simp [scanNames, Scan, ih]

/-- What `ListAll` returns through an open handle on an existing table. -/
theorem ListAll_of_open (w : World) (h : Handle) (e : Env) (rows : Table)
    (hdb : w.db = some h) (hopen : h.closed = false)
    (htab : w.tables (tableName w.hallName) = some rows) :
    ListAll w e =
      match e.fault with
      | some err => some (.error err)
      | none => some (.ok (rows.map Row.name)) := by
  unfold ListAll
  simp only [hdb, dbQuery, hopen]
  cases hf : e.fault
  · simp only [runQuery, htab, Bool.false_eq_true, if_false]
    rw [scanNames_names]
    rfl
  · rfl

/-- A name none of whose rows passes the liveness predicate is not alive, whatever the
outcome of the read. -/
theorem IsAlive_false_of_rows (w : World) (h : Handle) (e : Env) (n : String) (rows : Table)
    (hdb : w.db = some h) (htab : w.tables (tableName w.hallName) = some rows)
    (hno : rows.any (aliveRow e.now n) = false) :
    IsAlive w e n = some false := by
  cases hc : h.closed
  · cases hf : e.fault
    · rw [IsAlive_of_read w h e n rows hdb hc hf htab, hno]
    · unfold IsAlive
      simp [hdb, dbQuery, hc, hf]
  · unfold IsAlive
    simp [hdb, dbQuery, hc]

/-- No row named `n` is left by `DELETE ... WHERE name = n`. -/
theorem any_aliveRow_deleteName (now : Int) (n : String) (rows : Table) :
    (rows.filter fun r => !decide (r.name = n)).any (aliveRow now n) = false := by
  rw [Bool.eq_false_iff]
  intro hany
  obtain ⟨r, hr, hn, _⟩ := (any_aliveRow now n _).1 hany
  have := (List.mem_filter.1 hr).2
  simp [hn] at this

/-- C4, amended: when `n` is alive at the call and the `DELETE` goes through, `Unregister n`
returns nil, `IsAlive n` is false from then on, `ListAll` does not contain `n`, and the
table holds the rows it held under the other names, unchanged and in the same order. -/
theorem Unregister_alive (w : World) (h : Handle) (e1 e2 : Env) (n : String) (rows : Table)
    (hdb : w.db = some h) (htab : w.tables (tableName w.hallName) = some rows)
    (halive : IsAlive w e1 n = some true) (hdel : e2.fault = none) :
    ∃ w1 : World, Unregister w e1 e2 n = some (none, w1) ∧
      (∀ e3 : Env, IsAlive w1 e3 n = some false) ∧
      (∀ (e3 : Env) (names : List String), ListAll w1 e3 = some (.ok names) → n ∉ names) ∧
      (∀ e3 : Env, e3.fault = none →
        ListAll w1 e3 = some (.ok ((rows.filter fun r => !decide (r.name = n)).map Row.name))) ∧
      w1.tables = Function.update w.tables (tableName w.hallName)
        (some (rows.filter fun r => !decide (r.name = n))) ∧
      w1.db = w.db ∧ w1.hallName = w.hallName ∧ w1.emitters = w.emitters := by
  have hopen := (open_of_alive w h e1 n hdb halive).1
  let ts1 : Tables := Function.update w.tables (tableName w.hallName)
    (some (rows.filter fun r => !decide (r.name = n)))
  let w1 : World := { w with tables := ts1 }
  have htab1 : w1.tables (tableName w1.hallName)
      = some (rows.filter fun r => !decide (r.name = n)) := by
    simp [w1, ts1]
  have hnot : n ∉ (rows.filter fun r => !decide (r.name = n)).map Row.name := by
    intro hmem
    obtain ⟨r, hr, hn⟩ := List.mem_map.1 hmem
    have := (List.mem_filter.1 hr).2
    simp [hn] at this
  refine ⟨w1, ?_, ?_, ?_, ?_, rfl, rfl, rfl, rfl⟩
  · unfold Unregister
    simp only [halive]
    rw [exec_of_open w h e2 _ hdb hopen hdel]
    simp [applyStmt, htab, w1, ts1]
  · intro e3
    exact IsAlive_false_of_rows w1 h e3 n _ hdb htab1 (any_aliveRow_deleteName e3.now n rows)
  · intro e3 names hlist
    rw [ListAll_of_open w1 h e3 _ hdb hopen htab1] at hlist
    cases hf : e3.fault
    · simp only [hf, Option.some.injEq, Except.ok.injEq] at hlist
      rw [← hlist]
      exact hnot
    · simp [hf] at hlist
  · intro e3 hf
    rw [ListAll_of_open w1 h e3 _ hdb hopen htab1, hf]

/-- C4 fails when the `DELETE` does not go through: with the row `("a", "c", 5)` alive at
time 12 and the `DELETE` ending on a lock wait timeout (error 1205), `Unregister "a"`
returns that error, the row stays, `IsAlive "a"` is still true and `ListAll` still
returns `"a"`. -/
theorem Unregister_delete_fails :
    IsAlive (hall [⟨"a", "c", 5⟩]) (atTime 12) "a" = some true ∧
    (Unregister (hall [⟨"a", "c", 5⟩]) (atTime 12) ⟨12, some (Err.mysql 1205)⟩ "a").map Prod.fst
      = some (some (Err.mysql 1205)) ∧
    (Unregister (hall [⟨"a", "c", 5⟩]) (atTime 12) ⟨12, some (Err.mysql 1205)⟩ "a").bind
      (fun p => IsAlive p.2 (atTime 12) "a") = some true ∧
    (Unregister (hall [⟨"a", "c", 5⟩]) (atTime 12) ⟨12, some (Err.mysql 1205)⟩ "a").bind
      (fun p => p.2.tables "hall_") = some [⟨"a", "c", 5⟩] ∧
    ((Unregister (hall [⟨"a", "c", 5⟩]) (atTime 12) ⟨12, some (Err.mysql 1205)⟩ "a").bind
      (fun p => ListAll p.2 (atTime 12))).map Except.toOption = some (some ["a"]) := by
  decide

/-- C4 at a table holding an alive `"a"` and an expired `"b"`, at time 12. -/
theorem Unregister_alive_witness :
    ∃ w1 : World,
      Unregister (hall [⟨"a", "c", 5⟩, ⟨"b", "d", 0⟩]) (atTime 12) (atTime 12) "a"
        = some (none, w1) ∧
      (∀ e3 : Env, IsAlive w1 e3 "a" = some false) ∧
      (∀ (e3 : Env) (names : List String), ListAll w1 e3 = some (.ok names) → "a" ∉ names) ∧
      (∀ e3 : Env, e3.fault = none →
        ListAll w1 e3 = some (.ok
          (([⟨"a", "c", 5⟩, ⟨"b", "d", 0⟩].filter fun r => !decide (r.name = "a")).map
            Row.name))) ∧
      w1.tables = Function.update (hall [⟨"a", "c", 5⟩, ⟨"b", "d", 0⟩]).tables
        (tableName (hall [⟨"a", "c", 5⟩, ⟨"b", "d", 0⟩]).hallName)
        (some ([⟨"a", "c", 5⟩, ⟨"b", "d", 0⟩].filter fun r => !decide (r.name = "a"))) ∧
      w1.db = (hall [⟨"a", "c", 5⟩, ⟨"b", "d", 0⟩]).db ∧
      w1.hallName = (hall [⟨"a", "c", 5⟩, ⟨"b", "d", 0⟩]).hallName ∧
      w1.emitters = (hall [⟨"a", "c", 5⟩, ⟨"b", "d", 0⟩]).emitters :=
  Unregister_alive (hall [⟨"a", "c", 5⟩, ⟨"b", "d", 0⟩]) ⟨"dsn", false⟩ (atTime 12) (atTime 12)
    "a" [⟨"a", "c", 5⟩, ⟨"b", "d", 0⟩] rfl (by decide) (by decide) rfl

/-! ## Registration followed by a liveness query -/

/-- A string of `k` copies of an ASCII letter takes `k` bytes. -/
theorem utf8ByteSize_replicate (k : Nat) : (String.mk (List.replicate k 'x')).utf8ByteSize = k := by
  induction k with
  | zero => rfl
  | succ k ih =>
    simp only [String.utf8ByteSize, List.replicate_succ, String.utf8ByteSize.go] at ih ⊢
    rw [ih]
    rfl

theorem longName_length : longName.length = 256 := by
  show (List.replicate 256 'a').length = 256
  exact List.length_replicate 256 'a'

theorem longContent_size : longContent.utf8ByteSize = 65536 :=
  utf8ByteSize_replicate 65536

/-- When the name is not alive and the `INSERT` reaches the table with a name or a content
longer than its column, `Register` returns error 1406; it writes no row and starts the
emitter all the same. -/
theorem Register_data_too_long (w : World) (h : Handle) (e1 e2 : Env) (n c : String)
    (rows : Table) (hdb : w.db = some h) (hopen : h.closed = false) (hok : e2.fault = none)
    (htab : w.tables (tableName w.hallName) = some rows)
    (hdead : IsAlive w e1 n = some false)
    (hlong : n.length > NAME_MAX ∨ c.utf8ByteSize > CONTENT_MAX) :
    Register w e1 e2 n c
      = some (some (Err.mysql 1406), { w with emitters := w.emitters ++ [n] }) := by
  unfold Register
  rw [hdead]
  simp only
  rw [exec_of_open w h e2 _ hdb hopen hok]
  simp only [applyStmt, htab, hlong, if_true]

/-- C3 fails in these ways.  On a table that still holds an expired row of the name, the
`INSERT` of `Register` breaks the primary key (error 1062) and the row stays as it was.  A
name of 256 characters or a content of 65536 bytes does not fit its column (error 1406).
An `INSERT` that the driver fails writes nothing.  In all four `Register` returns the error
and `IsAlive` is false right after.  After a `Register` that returned nil, `IsAlive` is
false when its own read fails.  Through a closed handle, and on a table that does not
exist, `Register` returns the error of the store and `IsAlive` is false. -/
theorem Register_then_IsAlive_fails :
    ((Register (hall [⟨"a", "c0", 0⟩]) (atTime 100) (atTime 100) "a" "c").map Prod.fst
        = some (some (Err.mysql 1062)) ∧
      (Register (hall [⟨"a", "c0", 0⟩]) (atTime 100) (atTime 100) "a" "c").bind
        (fun p => IsAlive p.2 (atTime 100) "a") = some false ∧
      (Register (hall [⟨"a", "c0", 0⟩]) (atTime 100) (atTime 100) "a" "c").bind
        (fun p => p.2.tables "hall_") = some [⟨"a", "c0", 0⟩]) ∧
    ((Register (hall []) (atTime 100) (atTime 100) longName "c").map Prod.fst
        = some (some (Err.mysql 1406)) ∧
      (Register (hall []) (atTime 100) (atTime 100) longName "c").bind
        (fun p => IsAlive p.2 (atTime 100) longName) = some false) ∧
    ((Register (hall []) (atTime 100) (atTime 100) "a" longContent).map Prod.fst
        = some (some (Err.mysql 1406)) ∧
      (Register (hall []) (atTime 100) (atTime 100) "a" longContent).bind
        (fun p => IsAlive p.2 (atTime 100) "a") = some false) ∧
    ((Register (hall []) (atTime 100) ⟨100, some (Err.mysql 2006)⟩ "a" "c").map Prod.fst
        = some (some (Err.mysql 2006)) ∧
      (Register (hall []) (atTime 100) ⟨100, some (Err.mysql 2006)⟩ "a" "c").bind
        (fun p => IsAlive p.2 (atTime 100) "a") = some false) ∧
    ((Register (hall []) (atTime 100) (atTime 100) "a" "c").map Prod.fst = some none ∧
      (Register (hall []) (atTime 100) (atTime 100) "a" "c").bind
        (fun p => IsAlive p.2 ⟨100, some (Err.mysql 2006)⟩ "a") = some false) ∧
    ((Register (Init (hall []) none (atTime 100) "dsn" "").2 (atTime 100) (atTime 100) "a" "c").map
        Prod.fst = some (some Err.ErrDBClosed) ∧
      (Register (Init (hall []) none (atTime 100) "dsn" "").2 (atTime 100) (atTime 100) "a" "c").bind
        (fun p => IsAlive p.2 (atTime 100) "a") = some false) ∧
    ((Register (initialised "x") (atTime 100) (atTime 100) "a" "c").map Prod.fst
        = some (some (Err.mysql 1146)) ∧
      (Register (initialised "x") (atTime 100) (atTime 100) "a" "c").bind
        (fun p => IsAlive p.2 (atTime 100) "a") = some false) := by
  have hname : Register (hall []) (atTime 100) (atTime 100) longName "c"
      = some (some (Err.mysql 1406), { hall [] with emitters := (hall []).emitters ++ [longName] }) :=
    Register_data_too_long (hall []) ⟨"dsn", false⟩ (atTime 100) (atTime 100) longName "c" []
      rfl rfl rfl (by decide)
      (IsAlive_false_of_rows (hall []) ⟨"dsn", false⟩ (atTime 100) longName [] rfl (by decide) rfl)
      (Or.inl (by rw [longName_length]; decide))
  have hcontent : Register (hall []) (atTime 100) (atTime 100) "a" longContent
      = some (some (Err.mysql 1406), { hall [] with emitters := (hall []).emitters ++ ["a"] }) :=
    Register_data_too_long (hall []) ⟨"dsn", false⟩ (atTime 100) (atTime 100) "a" longContent []
      rfl rfl rfl (by decide)
      (IsAlive_false_of_rows (hall []) ⟨"dsn", false⟩ (atTime 100) "a" [] rfl (by decide) rfl)
      (Or.inr (by rw [longContent_size]; decide))
  refine ⟨by decide, ⟨?_, ?_⟩, ⟨?_, ?_⟩, by decide, by decide, by decide, by decide⟩
  · rw [hname]; rfl
  · rw [hname]
    exact IsAlive_false_of_rows { hall [] with emitters := (hall []).emitters ++ [longName] }
      ⟨"dsn", false⟩ (atTime 100) longName [] rfl (by decide) rfl
  · rw [hcontent]; rfl
  · rw [hcontent]
    exact IsAlive_false_of_rows { hall [] with emitters := (hall []).emitters ++ ["a"] }
      ⟨"dsn", false⟩ (atTime 100) "a" [] rfl (by decide) rfl

/-- C3, amended: on a table where every row named `n` is alive at time `t` (so `n` is alive
or has no row), for a name of at most 255 characters and a content of at most 65535 bytes,
and when the three calls reach the table, `Register n c` at time `t` followed by
`IsAlive n` at time `t` yields true; `Register` returns nil when `n` had no row and
`ErrNameExists` when it had one. -/
theorem Register_then_IsAlive (w : World) (h : Handle) (t : Int) (n c : String) (rows : Table)
    (hdb : w.db = some h) (hopen : h.closed = false)
    (htab : w.tables (tableName w.hallName) = some rows)
    (hfresh : ∀ r ∈ rows, r.name = n → r.last_alive > t - Seconds INACTIVE_THRESHOLD)
    (hname : n.length ≤ NAME_MAX) (hcontent : c.utf8ByteSize ≤ CONTENT_MAX) :
    ∃ (res : Option Err) (w1 : World),
      Register w (atTime t) (atTime t) n c = some (res, w1) ∧
      IsAlive w1 (atTime t) n = some true ∧
      res = (if rows.any (fun r => decide (r.name = n)) then some Err.ErrNameExists else none) := by
  have hread := IsAlive_of_read w h (atTime t) n rows hdb hopen rfl htab
  have hfits : ¬ (n.length > NAME_MAX ∨ c.utf8ByteSize > CONTENT_MAX) := by omega
  cases hany : rows.any (fun r => decide (r.name = n))
  · -- no row named `n`: the `INSERT` goes through
    have hdead : rows.any (aliveRow (atTime t).now n) = false := by
      rw [Bool.eq_false_iff]
      intro ha
      obtain ⟨r, hr, hn, _⟩ := (any_aliveRow _ n rows).1 ha
      have : rows.any (fun r => decide (r.name = n)) = true :=
        List.any_eq_true.2 ⟨r, hr, by simp [hn]⟩
      rw [hany] at this
      exact Bool.false_ne_true this
    let ts1 : Tables := Function.update w.tables (tableName w.hallName)
      (some (rows ++ [{ name := n, content := c, last_alive := t }]))
    let w1 : World := { w with tables := ts1, emitters := w.emitters ++ [n] }
    have htab1 : w1.tables (tableName w1.hallName)
        = some (rows ++ [{ name := n, content := c, last_alive := t }]) := by
      simp [w1, ts1]
    refine ⟨none, w1, ?_, ?_, by simp⟩
    · unfold Register
      rw [hread, hdead]
      simp only
      rw [exec_of_open w h (atTime t) _ hdb hopen rfl]
      simp [applyStmt, htab, hany, hfits, w1, ts1, atTime]
    · rw [IsAlive_of_read w1 h (atTime t) n _ hdb hopen rfl htab1]
      simp [aliveRow, seconds_threshold, atTime]
  · -- a row named `n`, alive by hypothesis
    have halive : rows.any (aliveRow (atTime t).now n) = true := by
      obtain ⟨r, hr, hn⟩ := List.any_eq_true.1 hany
      have hn2 : r.name = n := by simpa using hn
      exact List.any_eq_true.2 ⟨r, hr, by simp [aliveRow, hn2, atTime, hfresh r hr hn2]⟩
    refine ⟨some Err.ErrNameExists, w, ?_, ?_, by simp⟩
    · unfold Register
      rw [hread, halive]
    · rw [hread, halive]

/-- C3, amended, at a table without a row for `"b"`, at time 100. -/
theorem Register_then_IsAlive_witness :
    ∃ (res : Option Err) (w1 : World),
      Register (hall [⟨"a", "c0", 95⟩]) (atTime 100) (atTime 100) "b" "c" = some (res, w1) ∧
      IsAlive w1 (atTime 100) "b" = some true ∧
      res = (if [(⟨"a", "c0", 95⟩ : Row)].any (fun r => decide (r.name = "b"))
        then some Err.ErrNameExists else none) :=
  Register_then_IsAlive (hall [⟨"a", "c0", 95⟩]) ⟨"dsn", false⟩ 100 "b" "c" [⟨"a", "c0", 95⟩]
    rfl rfl (by decide) (by decide) (by decide) (by decide)

/-! ## The sweep of the garbage collector -/

/-- One sweep through an open handle that reaches an existing table keeps exactly the rows
that fail the predicate of its `DELETE`. -/
theorem GC_one_sweep (w : World) (h : Handle) (e : Env) (rows : Table)
    (hdb : w.db = some h) (hopen : h.closed = false) (hok : e.fault = none)
    (htab : w.tables (tableName w.hallName) = some rows) :
    GC w [e] = some { w with
      tables := Function.update w.tables (tableName w.hallName) (some (swept e.now rows)) } := by
  simp only [GC, List.foldlM_cons, List.foldlM_nil, GCsweep]
  rw [exec_of_open w h e _ hdb hopen hok]
  simp [applyStmt, htab, swept]

/-- C6 fails at the boundary: the row `("a", "c", 0)` is not alive at time 10, since
`0 > 10 - 10` is false, and a sweep at time 10 keeps it, since `0 < 10 - 10` is false too;
`ListAll` still returns `"a"` after the sweep.  A sweep at time 11 whose `DELETE` fails on
a lost connection keeps the row as well.  And `IsAlive` is false for the row `("a", "c", 5)`
at time 10 when its read fails, a row the sweep at time 11 keeps. -/
theorem GC_sweep_keeps_boundary_row :
    IsAlive (hall [⟨"a", "c", 0⟩]) (atTime 10) "a" = some false ∧
    (10 : Int) ≥ 10 ∧
    (GC (hall [⟨"a", "c", 0⟩]) [atTime 10]).bind (fun w => w.tables "hall_")
      = some [⟨"a", "c", 0⟩] ∧
    ((GC (hall [⟨"a", "c", 0⟩]) [atTime 10]).bind (fun w => ListAll w (atTime 10))).map
      Except.toOption = some (some ["a"]) ∧
    (GC (hall [⟨"a", "c", 0⟩]) [⟨11, some (Err.mysql 2006)⟩]).bind (fun w => w.tables "hall_")
      = some [⟨"a", "c", 0⟩] ∧
    IsAlive (hall [⟨"a", "c", 5⟩]) ⟨10, some (Err.mysql 2006)⟩ "a" = some false ∧
    (GC (hall [⟨"a", "c", 5⟩]) [atTime 11]).bind (fun w => w.tables "hall_")
      = some [⟨"a", "c", 5⟩] := by
  decide

/-- Let `n` be not alive at time `t` by a read that reached the table, and let a sweep run
at a strictly later time on a table whose rows named `n` are rows of the table read at
`t`.  When the `DELETE` goes through, the sweep leaves no row named `n`, `ListAll` does not
contain `n`, and the table holds exactly the rows the predicate of the `DELETE` spares,
unchanged and in order. -/
theorem sweep_of_same_rows (w w2 : World) (h h2 : Handle) (e e2 : Env) (n : String)
    (rows rows2 : Table)
    (hdb : w.db = some h) (hopen : h.closed = false) (hread : e.fault = none)
    (htab : w.tables (tableName w.hallName) = some rows)
    (hdead : IsAlive w e n = some false)
    (hdb2 : w2.db = some h2) (hopen2 : h2.closed = false) (hsweep : e2.fault = none)
    (htab2 : w2.tables (tableName w2.hallName) = some rows2)
    (hsame : ∀ r ∈ rows2, r.name = n → r ∈ rows)
    (hlater : e.now < e2.now) :
    ∃ w3 : World, GC w2 [e2] = some w3 ∧
      w3.tables = Function.update w2.tables (tableName w2.hallName)
        (some (rows2.filter fun r => !decide (r.last_alive < e2.now - Seconds INACTIVE_THRESHOLD))) ∧
      (∀ rows3 : Table, w3.tables (tableName w3.hallName) = some rows3 →
        ∀ r ∈ rows3, r.name ≠ n) ∧
      (∀ (e3 : Env) (names : List String), ListAll w3 e3 = some (.ok names) → n ∉ names) ∧
      (∀ e3 : Env, e3.fault = none →
        ListAll w3 e3 = some (.ok ((swept e2.now rows2).map Row.name))) ∧
      w3.db = w2.db ∧ w3.hallName = w2.hallName ∧ w3.emitters = w2.emitters := by
  rw [IsAlive_of_read w h e n rows hdb hopen hread htab] at hdead
  have hnone : ∀ r ∈ swept e2.now rows2, r.name ≠ n := by
    intro r hr hn
    obtain ⟨hr2, hkeep⟩ := List.mem_filter.1 hr
    have hold : ¬ (r.last_alive > e.now - 10) := by
      intro hgt
      have : rows.any (aliveRow e.now n) = true :=
        (any_aliveRow e.now n rows).2 ⟨r, hsame r hr2 hn, hn, hgt⟩
      rw [Option.some.injEq] at hdead
      rw [hdead] at this
      exact Bool.false_ne_true this
    simp only [seconds_threshold, Bool.not_eq_true', decide_eq_false_iff_not] at hkeep
    omega
  let w3 : World :=
    { w2 with tables := Function.update w2.tables (tableName w2.hallName) (some (swept e2.now rows2)) }
  have htab3 : w3.tables (tableName w3.hallName) = some (swept e2.now rows2) := by
    simp [w3]
  have hnot : n ∉ (swept e2.now rows2).map Row.name := by
    intro hmem
    obtain ⟨r, hr, hn⟩ := List.mem_map.1 hmem
    exact hnone r hr hn
  refine ⟨w3, GC_one_sweep w2 h2 e2 rows2 hdb2 hopen2 hsweep htab2, rfl, ?_, ?_, ?_,
    rfl, rfl, rfl⟩
  · intro rows3 h3 r hr
    rw [htab3, Option.some.injEq] at h3
    exact hnone r (h3 ▸ hr)
  · intro e3 names hlist
    rw [ListAll_of_open w3 h2 e3 _ hdb2 hopen2 htab3] at hlist
    cases hf : e3.fault
    · simp only [hf, Option.some.injEq, Except.ok.injEq] at hlist
      rw [← hlist]
      exact hnot
    · simp [hf] at hlist
  · intro e3 hf
    rw [ListAll_of_open w3 h2 e3 _ hdb2 hopen2 htab3, hf]

/-! ## Calls between a liveness query and the next sweep -/

theorem namedRows_updateAlive (n job : String) (now : Int) (hne : job ≠ n) (rows : Table) :
    namedRows n (rows.map fun r => if r.name = job then { r with last_alive := now } else r)
      = namedRows n rows := by
  induction rows with
  | nil => rfl
  | cons r rs ih =>
    simp only [namedRows] at ih ⊢
    simp only [List.map_cons, List.filter_cons]
    rw [ih]
    by_cases hj : r.name = job
    · have hn : ¬ job = n := hne
      simp [hj, hn]
    · simp [hj]

theorem namedRows_deleteName (n m : String) (hne : m ≠ n) (rows : Table) :
    namedRows n (rows.filter fun r => !decide (r.name = m)) = namedRows n rows := by
  unfold namedRows
  rw [List.filter_filter]
  apply List.filter_congr
  intro r _
  by_cases hn : r.name = n
  · have hm : ¬ n = m := fun hnm => hne hnm.symm
    simp [hn, hm]
  · simp [hn]

theorem namedRows_insert (n m c : String) (now : Int) (hne : m ≠ n) (rows : Table) :
    namedRows n (rows ++ [{ name := m, content := c, last_alive := now }]) = namedRows n rows := by
  unfold namedRows
  simp [List.filter_append, List.filter_cons, hne]

/-- A table with a row named `n` has a row of that name. -/
theorem any_of_namedRows (n : String) (rows : Table) (hne : namedRows n rows ≠ []) :
    rows.any (fun r => decide (r.name = n)) = true := by
  obtain ⟨r, hr⟩ := List.exists_mem_of_ne_nil _ hne
  obtain ⟨hr1, hr2⟩ := List.mem_filter.1 hr
  exact List.any_eq_true.2 ⟨r, hr1, hr2⟩

/-- A call of `db.Exec` that succeeds has run its statement on the tables. -/
theorem applyStmt_of_dbExec (h : Handle) (e : Env) (ts ts1 : Tables) (s : Stmt)
    (hex : dbExec h e ts s = .ok ts1) : applyStmt e.now ts s = .ok ts1 := by
  unfold dbExec at hex
  cases hc : h.closed
  · cases hf : e.fault
    · simpa [hc, hf] using hex
    · simp [hc, hf] at hex
  · simp [hc] at hex

/-- An `INSERT` that goes through on a table with a row named `n` leaves the rows named
`n` as they were: the row it adds has another name. -/
theorem applyStmt_insert_keeps (n m c T : String) (now : Int) (ts ts1 : Tables) (rows : Table)
    (htab : ts T = some rows) (hrow : namedRows n rows ≠ [])
    (hap : applyStmt now ts (.insertRow T m c) = .ok ts1) :
    ∃ rows1 : Table, ts1 T = some rows1 ∧ namedRows n rows1 = namedRows n rows := by
  simp only [applyStmt, htab] at hap
  split at hap
  · simp at hap
  · split at hap
    · simp at hap
    · rename_i _ hdup
      have hne : m ≠ n := by
        intro hmn
        rw [hmn] at hdup
        exact hdup (any_of_namedRows n rows hrow)
      simp only [Except.ok.injEq] at hap
      refine ⟨_, by rw [← hap]; simp, namedRows_insert n m c now hne rows⟩

/-- A `DELETE` by another name leaves the rows named `n` as they were. -/
theorem applyStmt_delete_keeps (n m T : String) (now : Int) (ts ts1 : Tables) (rows : Table)
    (htab : ts T = some rows) (hne : m ≠ n)
    (hap : applyStmt now ts (.deleteName T m) = .ok ts1) :
    ∃ rows1 : Table, ts1 T = some rows1 ∧ namedRows n rows1 = namedRows n rows := by
  simp only [applyStmt, htab, Except.ok.injEq] at hap
  exact ⟨_, by rw [← hap]; simp, namedRows_deleteName n m hne rows⟩

/-- An `UPDATE` of another name leaves the rows named `n` as they were. -/
theorem applyStmt_update_keeps (n job T : String) (now : Int) (ts ts1 : Tables) (rows : Table)
    (htab : ts T = some rows) (hne : job ≠ n)
    (hap : applyStmt now ts (.updateAlive T job) = .ok ts1) :
    ∃ rows1 : Table, ts1 T = some rows1 ∧ namedRows n rows1 = namedRows n rows := by
  simp only [applyStmt, htab, Except.ok.injEq] at hap
  exact ⟨_, by rw [← hap]; simp, namedRows_updateAlive n job now hne rows⟩

/-- The loop of `update` on a batch without `n` leaves the rows named `n` as they were. -/
theorem updateLoop_keeps (n T : String) (env : Nat → Env) (jobs : List String) :
    ∀ (i : Nat) (tx tx1 : Tx) (rows : Table), n ∉ jobs → tx.tables T = some rows →
      updateLoop T env i jobs tx = .ok tx1 →
      ∃ rows1 : Table, tx1.tables T = some rows1 ∧ namedRows n rows1 = namedRows n rows := by
  induction jobs with
  | nil =>
    intro i tx tx1 rows _ htab hrun
    simp only [updateLoop, Except.ok.injEq] at hrun
    exact ⟨rows, by rw [← hrun]; exact htab, rfl⟩
  | cons job jobs ih =>
    intro i tx tx1 rows hn htab hrun
    have hjob : job ≠ n := fun hj => hn (by simp [hj])
    have hrest : n ∉ jobs := fun hj => hn (List.mem_cons_of_mem job hj)
    simp only [updateLoop] at hrun
    cases hstep : txExec tx (env i) (.updateAlive T job) with
    | error err => simp [hstep] at hrun
    | ok tx2 =>
      simp only [hstep] at hrun
      unfold txExec at hstep
      cases hf : (env i).fault with
      | some err => simp [hf] at hstep
      | none =>
        simp only [hf] at hstep
        cases ha : applyStmt (env i).now tx.tables (.updateAlive T job) with
        | error err => simp [ha] at hstep
        | ok ts =>
          simp only [ha, Except.ok.injEq] at hstep
          obtain ⟨rows2, htab2, hnamed2⟩ :=
            applyStmt_update_keeps n job T (env i).now tx.tables ts rows htab hjob ha
          have htab2b : tx2.tables T = some rows2 := by rw [← hstep]; exact htab2
          obtain ⟨rows1, htab1, hnamed1⟩ := ih (i + 1) tx2 tx1 rows2 hrest htab2b hrun
          exact ⟨rows1, htab1, hnamed1.trans hnamed2⟩

/-- With `db` set, `IsAlive` returns an answer. -/
theorem IsAlive_answers (w : World) (h : Handle) (e : Env) (n : String) (hdb : w.db = some h) :
    ∃ b : Bool, IsAlive w e n = some b := by
  unfold IsAlive
  simp only [hdb]
  split
  · exact ⟨false, rfl⟩
  · exact ⟨_, rfl⟩

/-- One call that applies no heartbeat to `n`, made at time `t` or later on a table whose
rows named `n` are the rows `R`, none of them alive at `t` and at least one of them stored,
returns and leaves the rows named `n` as they were. -/
theorem run_keeps (n : String) (t : Int) (T : String) (R : Table) (hR : R ≠ [])
    (hRdead : ∀ r ∈ R, ¬ r.last_alive > t - Seconds INACTIVE_THRESHOLD)
    (w : World) (h : Handle) (rows : Table) (op : Op)
    (hT : tableName w.hallName = T) (hdb : w.db = some h)
    (htab : w.tables T = some rows) (hnamed : namedRows n rows = R)
    (hquiet : op.heartbeat n w = false) (hsince : op.since t) :
    ∃ (w1 : World) (h1 : Handle) (rows1 : Table), op.run w = some w1 ∧
      tableName w1.hallName = T ∧ w1.db = some h1 ∧ w1.tables T = some rows1 ∧
      namedRows n rows1 = R := by
  have hrow : namedRows n rows ≠ [] := by rw [hnamed]; exact hR
  cases op with
  | init openErr e dsn name =>
    refine ⟨{ w with db := some { h with closed := true } }, { h with closed := true }, rows,
      ?_, hT, rfl, htab, hnamed⟩
    simp only [Op.run, Init, hdb]
  | register e1 e2 m c =>
    obtain ⟨b, hb⟩ := IsAlive_answers w h e1 m hdb
    cases b
    · cases hex : dbExec h e2 w.tables (.insertRow (tableName w.hallName) m c) with
      | error err =>
        refine ⟨{ w with emitters := w.emitters ++ [m] }, h, rows, ?_, hT, hdb, htab, hnamed⟩
        simp only [Op.run, Register, hb, World.exec, hdb, hex, Option.map_some']
      | ok ts =>
        have hap := applyStmt_of_dbExec h e2 w.tables ts _ hex
        rw [hT] at hap
        obtain ⟨rows1, h1, h2⟩ :=
          applyStmt_insert_keeps n m c T e2.now w.tables ts rows htab hrow hap
        refine ⟨{ w with tables := ts, emitters := w.emitters ++ [m] }, h, rows1, ?_, hT, hdb,
          h1, h2.trans hnamed⟩
        simp only [Op.run, Register, hb, World.exec, hdb, hex, Option.map_some']
    · refine ⟨w, h, rows, ?_, hT, hdb, htab, hnamed⟩
      simp only [Op.run, Register, hb, Option.map_some']
  | unregister e1 e2 m =>
    obtain ⟨b, hb⟩ := IsAlive_answers w h e1 m hdb
    cases b
    · refine ⟨w, h, rows, ?_, hT, hdb, htab, hnamed⟩
      simp only [Op.run, Unregister, hb, Option.map_some']
    · have hne : m ≠ n := by
        intro hmn
        rw [hmn] at hb
        obtain ⟨hopen, hok⟩ := open_of_alive w h e1 n hdb hb
        rw [IsAlive_of_read w h e1 n rows hdb hopen hok (hT ▸ htab), Option.some.injEq] at hb
        obtain ⟨r, hr, hrn, hgt⟩ := (any_aliveRow e1.now n rows).1 hb
        have hrR : r ∈ R := by
          rw [← hnamed]
          exact List.mem_filter.2 ⟨hr, by simp [hrn]⟩
        have hle := hsince.1
        have hold := hRdead r hrR
        rw [seconds_threshold] at hold
        omega
      cases hex : dbExec h e2 w.tables (.deleteName (tableName w.hallName) m) with
      | error err =>
        refine ⟨w, h, rows, ?_, hT, hdb, htab, hnamed⟩
        simp only [Op.run, Unregister, hb, World.exec, hdb, hex]
        split <;> rfl
      | ok ts =>
        have hap := applyStmt_of_dbExec h e2 w.tables ts _ hex
        rw [hT] at hap
        obtain ⟨rows1, h1, h2⟩ := applyStmt_delete_keeps n m T e2.now w.tables ts rows htab hne hap
        refine ⟨{ w with tables := ts }, h, rows1, ?_, hT, hdb, h1, h2.trans hnamed⟩
        simp only [Op.run, Unregister, hb, World.exec, hdb, hex]
        split <;> rfl
  | listAll e =>
    refine ⟨w, h, rows, ?_, hT, hdb, htab, hnamed⟩
    simp only [Op.run, ListAll, hdb]
    split <;> rfl
  | isAlive e m =>
    obtain ⟨b, hb⟩ := IsAlive_answers w h e m hdb
    refine ⟨w, h, rows, ?_, hT, hdb, htab, hnamed⟩
    simp only [Op.run, hb, Option.map_some']
  | flush env jobs =>
    cases htx : updateTx h w env jobs with
    | error err =>
      refine ⟨{ w with updateCalls := w.updateCalls ++ [jobs] }, h, rows, ?_, hT, hdb, htab,
        hnamed⟩
      simp only [Op.run, update, hdb, htx, Option.map_some']
    | ok tx =>
      cases hco : txCommit tx (env (jobs.length + 1)) with
      | error err =>
        refine ⟨{ w with updateCalls := w.updateCalls ++ [jobs] }, h, rows, ?_, hT, hdb, htab,
          hnamed⟩
        simp only [Op.run, update, hdb, htx, hco, Option.map_some']
      | ok ts =>
        have hup : update w env jobs
            = some (none, { w with updateCalls := w.updateCalls ++ [jobs], tables := ts }) := by
          simp only [update, hdb, htx, hco]
        have hn : n ∉ jobs := by
          intro hmem
          simp [Op.heartbeat, hup, hmem] at hquiet
        have hts : ts = tx.tables := by
          unfold txCommit at hco
          cases hf : (env (jobs.length + 1)).fault with
          | none => simpa [hf] using hco.symm
          | some err => simp [hf] at hco
        unfold updateTx at htx
        cases hbe : dbBegin h (env 0) w.tables with
        | error err => simp [hbe] at htx
        | ok tx0 =>
          simp only [hbe] at htx
          have htx0 : tx0.tables = w.tables := by
            unfold dbBegin at hbe
            cases hc : h.closed
            · cases hf : (env 0).fault
              · simp only [hc, hf, Bool.false_eq_true, if_false, Except.ok.injEq] at hbe
                rw [← hbe]
              · simp [hc, hf] at hbe
            · simp [hc] at hbe
          rw [hT] at htx
          obtain ⟨rows1, h1, h2⟩ :=
            updateLoop_keeps n T env jobs 1 tx0 tx rows hn (by rw [htx0]; exact htab) htx
          refine ⟨{ w with updateCalls := w.updateCalls ++ [jobs], tables := ts }, h, rows1, ?_,
            hT, hdb, by rw [hts]; exact h1, h2.trans hnamed⟩
          simp only [Op.run, hup, Option.map_some']

/-- A sequence of calls that applies no heartbeat to `n`, made at time `t` or later on a
table whose rows named `n` are the rows `R`, none of them alive at `t` and at least one of
them stored, returns and leaves the rows named `n` as they were. -/
theorem runOps_keeps (n : String) (t : Int) (T : String) (R : Table) (hR : R ≠ [])
    (hRdead : ∀ r ∈ R, ¬ r.last_alive > t - Seconds INACTIVE_THRESHOLD) (ops : List Op) :
    ∀ (w : World) (h : Handle) (rows : Table), tableName w.hallName = T → w.db = some h →
      w.tables T = some rows → namedRows n rows = R → noHeartbeat n w ops = true →
      (∀ op ∈ ops, op.since t) →
      ∃ (w2 : World) (h2 : Handle) (rows2 : Table), runOps w ops = some w2 ∧
        tableName w2.hallName = T ∧ w2.db = some h2 ∧ w2.tables T = some rows2 ∧
        namedRows n rows2 = R := by
  induction ops with
  | nil =>
    intro w h rows hT hdb htab hnamed _ _
    exact ⟨w, h, rows, rfl, hT, hdb, htab, hnamed⟩
  | cons op ops ih =>
    intro w h rows hT hdb htab hnamed hquiet hsince
    simp only [noHeartbeat, Bool.and_eq_true, Bool.not_eq_true'] at hquiet
    obtain ⟨w1, h1, rows1, hrun, hT1, hdb1, htab1, hnamed1⟩ :=
      run_keeps n t T R hR hRdead w h rows op hT hdb htab hnamed hquiet.1
        (hsince op (List.mem_cons_self op ops))
    have hq1 : noHeartbeat n w1 ops = true := by
      have := hquiet.2
      rw [hrun] at this
      exact this
    obtain ⟨w2, h2, rows2, hrun2, hrest⟩ :=
      ih w1 h1 rows1 hT1 hdb1 htab1 hnamed1 hq1
        (fun o ho => hsince o (List.mem_cons_of_mem op ho))
    refine ⟨w2, h2, rows2, ?_, hrest⟩
    simp only [runOps, List.foldlM_cons, hrun, Option.bind_eq_bind, Option.some_bind]
    exact hrun2

/-- C6, amended: let `n` have a row and be not alive at time `t`, by a read that reached the
table.  Let calls of `Init`, `Register`, `Unregister`, `ListAll`, `IsAlive` and `update`
follow, at time `t` or later, none of which applies a heartbeat to `n`, and let the next
sweep run at a strictly later time `t2` through a handle that is still open.  When the
`DELETE` goes through, the sweep leaves no row named `n`, `ListAll` does not contain `n`,
and the table holds exactly the rows with `last_alive ≥ t2 - INACTIVE_THRESHOLD`, unchanged
and in order. -/
theorem GC_next_sweep_removes_dead (w : World) (h h2 : Handle) (e e2 : Env) (n : String)
    (rows : Table) (ops : List Op)
    (hdb : w.db = some h) (hopen : h.closed = false) (hread : e.fault = none)
    (htab : w.tables (tableName w.hallName) = some rows)
    (hrow : ∃ r ∈ rows, r.name = n)
    (hdead : IsAlive w e n = some false)
    (hquiet : noHeartbeat n w ops = true) (hsince : ∀ op ∈ ops, op.since e.now)
    (hdb2 : (runOps w ops).bind World.db = some h2) (hopen2 : h2.closed = false)
    (hsweep : e2.fault = none) (hlater : e.now < e2.now) :
    ∃ (w2 : World) (rows2 : Table) (w3 : World),
      runOps w ops = some w2 ∧ w2.tables (tableName w2.hallName) = some rows2 ∧
      GC w2 [e2] = some w3 ∧
      w3.tables = Function.update w2.tables (tableName w2.hallName)
        (some (rows2.filter fun r => !decide (r.last_alive < e2.now - Seconds INACTIVE_THRESHOLD))) ∧
      (∀ rows3 : Table, w3.tables (tableName w3.hallName) = some rows3 →
        ∀ r ∈ rows3, r.name ≠ n) ∧
      (∀ (e3 : Env) (names : List String), ListAll w3 e3 = some (.ok names) → n ∉ names) ∧
      (∀ e3 : Env, e3.fault = none →
        ListAll w3 e3 = some (.ok ((swept e2.now rows2).map Row.name))) ∧
      w3.db = w2.db ∧ w3.hallName = w2.hallName ∧ w3.emitters = w2.emitters := by
  have hR : namedRows n rows ≠ [] := by
    obtain ⟨r, hr, hn⟩ := hrow
    exact List.ne_nil_of_mem (List.mem_filter.2 ⟨hr, by simp [hn]⟩)
  have hany : rows.any (aliveRow e.now n) = false := by
    rw [IsAlive_of_read w h e n rows hdb hopen hread htab, Option.some.injEq] at hdead
    exact hdead
  have hRdead : ∀ r ∈ namedRows n rows, ¬ r.last_alive > e.now - Seconds INACTIVE_THRESHOLD := by
    intro r hr hgt
    obtain ⟨hr1, hr2⟩ := List.mem_filter.1 hr
    have : rows.any (aliveRow e.now n) = true :=
      (any_aliveRow e.now n rows).2 ⟨r, hr1, by simpa using hr2, by rwa [seconds_threshold] at hgt⟩
    rw [hany] at this
    exact Bool.false_ne_true this
  obtain ⟨w2, h2b, rows2, hrun, hT2, hdb2b, htab2, hnamed2⟩ :=
    runOps_keeps n e.now (tableName w.hallName) (namedRows n rows) hR hRdead ops w h rows rfl hdb
      htab rfl hquiet hsince
  have hh : h2b = h2 := by
    rw [hrun, Option.some_bind, hdb2b, Option.some.injEq] at hdb2
    exact hdb2
  subst hh
  have htab2b : w2.tables (tableName w2.hallName) = some rows2 := by rw [hT2]; exact htab2
  have hsame : ∀ r ∈ rows2, r.name = n → r ∈ rows := by
    intro r hr hn
    have : r ∈ namedRows n rows2 := List.mem_filter.2 ⟨hr, by simp [hn]⟩
    rw [hnamed2] at this
    exact (List.mem_filter.1 this).1
  obtain ⟨w3, hgc, hrest⟩ :=
    sweep_of_same_rows w w2 h h2b e e2 n rows rows2 hdb hopen hread htab hdead hdb2b hopen2
      hsweep htab2b hsame hlater
  exact ⟨w2, rows2, w3, hrun, htab2b, hgc, hrest⟩

/-- C6, amended, at the row `("a", "c", 0)`, not alive at time 10, with the calls of
`quietCalls` in between and a sweep at time 11. -/
theorem GC_next_sweep_removes_dead_witness :
    ∃ (w2 : World) (rows2 : Table) (w3 : World),
      runOps (hall [⟨"a", "c", 0⟩, ⟨"b", "d", 5⟩]) quietCalls = some w2 ∧
      w2.tables (tableName w2.hallName) = some rows2 ∧
      GC w2 [atTime 11] = some w3 ∧
      w3.tables = Function.update w2.tables (tableName w2.hallName)
        (some (rows2.filter
          fun r => !decide (r.last_alive < (atTime 11).now - Seconds INACTIVE_THRESHOLD))) ∧
      (∀ rows3 : Table, w3.tables (tableName w3.hallName) = some rows3 →
        ∀ r ∈ rows3, r.name ≠ "a") ∧
      (∀ (e3 : Env) (names : List String), ListAll w3 e3 = some (.ok names) → "a" ∉ names) ∧
      (∀ e3 : Env, e3.fault = none →
        ListAll w3 e3 = some (.ok ((swept (atTime 11).now rows2).map Row.name))) ∧
      w3.db = w2.db ∧ w3.hallName = w2.hallName ∧ w3.emitters = w2.emitters :=
  GC_next_sweep_removes_dead (hall [⟨"a", "c", 0⟩, ⟨"b", "d", 5⟩]) ⟨"dsn", false⟩ ⟨"dsn", false⟩
    (atTime 10) (atTime 11) "a" [⟨"a", "c", 0⟩, ⟨"b", "d", 5⟩] quietCalls
    rfl rfl rfl (by decide) ⟨⟨"a", "c", 0⟩, by simp, rfl⟩ (by decide) (by decide)
    (by
      intro op hop
      simp only [quietCalls, List.mem_cons, List.mem_singleton, List.not_mem_nil, or_false] at hop
      rcases hop with rfl | rfl | rfl | rfl | rfl | rfl | rfl <;>
        simp [Op.since, atTime])
    (by decide) rfl rfl (by decide)

/-! ## Initialisation -/

/-- The package-level `hallName` is never assigned by `Init`. -/
theorem Init_keeps_hallName (w : World) (openErr : Option Err) (e : Env) (dsn name : String) :
    (Init w openErr e dsn name).2.hallName = w.hallName := by
  unfold Init
  cases w.db with
  | some h => rfl
  | none =>
    cases openErr with
    | some err => rfl
    | none =>
      simp only
      split <;> rfl

/-- On a world whose `db` is set, `Init` returns nil and closes the handle; it touches
nothing else. -/
theorem Init_again (w : World) (h : Handle) (openErr : Option Err) (e : Env)
    (dsn name : String) (hdb : w.db = some h) :
    Init w openErr e dsn name = (none, { w with db := some { h with closed := true } }) := by
  unfold Init
  simp only [hdb]

/-- C7: a second `Init` after a successful first one returns nil and creates no second queue
or worker, but it closes the store handle the first call opened: a name registered in
between, alive before the second call, is reported not alive after it, and `Register`
fails with the error of a closed database. -/
theorem Init_twice_closes_db :
    (Init fresh none (atTime 0) "dsn" "").1 = none ∧
    (initialised "").db = some ⟨"dsn", false⟩ ∧
    (Init (initialised "") none (atTime 1) "dsn" "").1 = none ∧
    (Init (initialised "") none (atTime 1) "dsn" "").2.db = some ⟨"dsn", true⟩ ∧
    (Init (initialised "") none (atTime 1) "dsn" "").2.updateQ = (initialised "").updateQ ∧
    (Init (initialised "") none (atTime 1) "dsn" "").2.workers = (initialised "").workers ∧
    (Register (initialised "") (atTime 1) (atTime 1) "a" "c").bind
      (fun p => IsAlive p.2 (atTime 1) "a") = some true ∧
    (Register (initialised "") (atTime 1) (atTime 1) "a" "c").bind
      (fun p => IsAlive (Init p.2 none (atTime 1) "dsn" "").2 (atTime 1) "a") = some false ∧
    (Register (Init (initialised "") none (atTime 1) "dsn" "").2 (atTime 1) (atTime 1) "b" "c").map
      Prod.fst = some (some Err.ErrDBClosed) := by
  decide

/-- C10: `Init "dsn" "x"` creates the table `hall_x` and leaves the package-level `hallName`
empty, so the other operations address the table `hall_`, which does not exist: `Register`
returns error 1146, `IsAlive` is false and `ListAll` returns error 1146. -/
theorem Init_does_not_set_hallName :
    (Init fresh none (atTime 0) "dsn" "x").1 = none ∧
    (initialised "x").hallName = "" ∧
    (initialised "x").tables (tableName "x") = some [] ∧
    (initialised "x").tables (tableName (initialised "x").hallName) = none ∧
    (Register (initialised "x") (atTime 1) (atTime 1) "a" "c").map Prod.fst
      = some (some (Err.mysql 1146)) ∧
    (Register (initialised "x") (atTime 1) (atTime 1) "a" "c").bind
      (fun p => IsAlive p.2 (atTime 1) "a") = some false ∧
    (ListAll (initialised "x") (atTime 1)).map (fun r => r.toOption) = some none ∧
    (Unregister (initialised "x") (atTime 1) (atTime 1) "a").map Prod.fst = some none := by
  decide

/-! ## The grouped update -/

/-- An `UPDATE` that reaches an existing table succeeds, is recorded by the transaction and
leaves the table in existence. -/
theorem txExec_updateAlive (tx : Tx) (e : Env) (t job : String) (rows : Table)
    (hok : e.fault = none) (htab : tx.tables t = some rows) :
    ∃ tx1 : Tx, txExec tx e (.updateAlive t job) = .ok tx1 ∧
      tx1.stmts = tx.stmts ++ [.updateAlive t job] ∧ ∃ rows1, tx1.tables t = some rows1 := by
  let rows1 : Table := rows.map fun r => if r.name = job then { r with last_alive := e.now } else r
  refine ⟨⟨Function.update tx.tables t (some rows1), tx.stmts ++ [.updateAlive t job]⟩,
    ?_, rfl, ?_⟩
  · unfold txExec
    simp only [hok, applyStmt, htab]
  · simp

/-- When the loop of `update` runs to its end, the transaction has executed one `UPDATE` for
each element of `jobs`, in order, after the statements it had executed before. -/
theorem updateLoop_stmts (table : String) (env : Nat → Env) (jobs : List String) :
    ∀ (i : Nat) (tx tx1 : Tx), updateLoop table env i jobs tx = .ok tx1 →
      tx1.stmts = tx.stmts ++ jobs.map (Stmt.updateAlive table) := by
  induction jobs with
  | nil =>
    intro i tx tx1 hrun
    simp only [updateLoop, Except.ok.injEq] at hrun
    simp [hrun]
  | cons job jobs ih =>
    intro i tx tx1 hrun
    simp only [updateLoop] at hrun
    cases hstep : txExec tx (env i) (.updateAlive table job) with
    | error err => simp [hstep] at hrun
    | ok tx2 =>
      simp only [hstep] at hrun
      rw [ih (i + 1) tx2 tx1 hrun]
      unfold txExec at hstep
      cases hf : (env i).fault with
      | some err => simp [hf] at hstep
      | none =>
        simp only [hf] at hstep
        cases ha : applyStmt (env i).now tx.tables (.updateAlive table job) with
        | error err => simp [ha] at hstep
        | ok ts =>
          simp only [ha, Except.ok.injEq] at hstep
          simp [← hstep]

/-- When every call reaches the server and the table exists, the loop of `update` runs to
its end. -/
theorem updateLoop_ok (table : String) (env : Nat → Env) (hok : ∀ i, (env i).fault = none)
    (jobs : List String) :
    ∀ (i : Nat) (tx : Tx) (rows : Table), tx.tables table = some rows →
      ∃ tx1 : Tx, updateLoop table env i jobs tx = .ok tx1 := by
  induction jobs with
  | nil => intro i tx rows _; exact ⟨tx, rfl⟩
  | cons job jobs ih =>
    intro i tx rows htab
    obtain ⟨tx2, hstep, _, rows1, htab2⟩ := txExec_updateAlive tx (env i) table job rows (hok i) htab
    obtain ⟨tx1, hrun⟩ := ih (i + 1) tx2 rows1 htab2
    exact ⟨tx1, by simp only [updateLoop, hstep, hrun]⟩

/-- C8, amended: when every call of the transaction reaches the server and the table
exists, the transaction built by `update` holds exactly one `UPDATE` per signal of the
batch, in arrival order: as many statements as the batch has signals, and for each name as
many as the name has occurrences; the transaction commits and `update` returns nil. -/
theorem update_one_statement_per_signal (w : World) (h : Handle) (env : Nat → Env)
    (jobs : List String) (rows : Table)
    (hdb : w.db = some h) (hopen : h.closed = false) (hok : ∀ i, (env i).fault = none)
    (htab : w.tables (tableName w.hallName) = some rows) :
    ∃ (tx : Tx) (w1 : World), updateTx h w env jobs = .ok tx ∧
      tx.stmts = jobs.map (Stmt.updateAlive (tableName w.hallName)) ∧
      tx.stmts.length = jobs.length ∧
      (∀ n : String, tx.stmts.count (.updateAlive (tableName w.hallName) n) = jobs.count n) ∧
      update w env jobs = some (none, w1) ∧ w1.tables = tx.tables := by
  have hbegin : dbBegin h (env 0) w.tables = .ok ⟨w.tables, []⟩ := by
    simp [dbBegin, hopen, hok 0]
  obtain ⟨tx, hrun⟩ := updateLoop_ok (tableName w.hallName) env hok jobs 1 ⟨w.tables, []⟩ rows htab
  have htx : updateTx h w env jobs = .ok tx := by
    simp only [updateTx, hbegin, hrun]
  have hstmts : tx.stmts = jobs.map (Stmt.updateAlive (tableName w.hallName)) := by
    simpa using updateLoop_stmts (tableName w.hallName) env jobs 1 ⟨w.tables, []⟩ tx hrun
  refine ⟨tx, { w with updateCalls := w.updateCalls ++ [jobs], tables := tx.tables }, htx,
    hstmts, ?_, ?_, ?_, rfl⟩
  · simp [hstmts]
  · intro n
    rw [hstmts]
    exact List.count_map_of_injective jobs _ (fun a b hab => by injection hab) n
  · simp only [update, hdb, htx, txCommit, hok]

/-- C8, amended, at a batch in which `"a"` occurs twice. -/
theorem update_one_statement_per_signal_witness :
    ∃ (tx : Tx) (w1 : World),
      updateTx ⟨"dsn", false⟩ (hall [⟨"a", "c", 0⟩]) (fun _ => atTime 1) ["a", "b", "a"] = .ok tx ∧
      tx.stmts = ["a", "b", "a"].map (Stmt.updateAlive (tableName (hall [⟨"a", "c", 0⟩]).hallName)) ∧
      tx.stmts.length = ["a", "b", "a"].length ∧
      (∀ n : String, tx.stmts.count (.updateAlive (tableName (hall [⟨"a", "c", 0⟩]).hallName) n)
        = ["a", "b", "a"].count n) ∧
      update (hall [⟨"a", "c", 0⟩]) (fun _ => atTime 1) ["a", "b", "a"] = some (none, w1) ∧
      w1.tables = tx.tables :=
  update_one_statement_per_signal (hall [⟨"a", "c", 0⟩]) ⟨"dsn", false⟩ (fun _ => atTime 1)
    ["a", "b", "a"] [⟨"a", "c", 0⟩] rfl rfl (fun _ => rfl) (by decide)

set_option maxRecDepth 1000000 in
/-- C8 fails on a batch that repeats a name: a hundred signals of `"a"` fill a batch, the
worker flushes it, and the transaction executes a hundred `UPDATE` statements while the
batch has one distinct name. -/
theorem update_repeats_names :
    (heartbeatWorker (hall [⟨"a", "c", 0⟩])
      ((List.replicate 100 "a").map fun j => (j, fun _ => atTime 1))).map Worker.flushed
      = some [List.replicate 100 "a"] ∧
    (updateTx ⟨"dsn", false⟩ (hall [⟨"a", "c", 0⟩]) (fun _ => atTime 1)
      (List.replicate 100 "a")).toOption.map (fun tx => tx.stmts.length) = some 100 ∧
    (List.replicate 100 "a").dedup.length = 1 := by
  decide

/-! ## The heartbeat worker -/

/-- With `db` set, `update` returns, with or without an error, and leaves `db` as it was. -/
theorem update_keeps_db (w : World) (h : Handle) (env : Nat → Env) (jobs : List String)
    (hdb : w.db = some h) :
    ∃ (err : Option Err) (w1 : World), update w env jobs = some (err, w1) ∧ w1.db = some h := by
  unfold update
  simp only [hdb]
  cases updateTx h w env jobs with
  | error err => exact ⟨some err, _, rfl, rfl⟩
  | ok tx =>
    simp only
    cases txCommit tx (env (jobs.length + 1)) with
    | error err => exact ⟨some err, _, rfl, rfl⟩
    | ok ts => exact ⟨none, _, rfl, rfl⟩

/-- Batches of `m` signals each hold `m` times their number of signals. -/
theorem length_flatten_batches {α : Type} (m : Nat) (F : List (List α))
    (hall : ∀ b ∈ F, b.length = m) : F.flatten.length = m * F.length := by
  induction F with
  | nil => simp
  | cons b F ih =>
    have hb : b.length = m := hall b (List.mem_cons_self b F)
    have hF : F.flatten.length = m * F.length := ih fun c hc => hall c (List.mem_cons_of_mem b hc)
    simp only [List.flatten_cons, List.length_append, List.length_cons, hb, hF]
    rw [Nat.mul_succ]
    omega

/-- The `i`-th of a list of batches of `m` signals is the `i`-th block of `m` signals of
their concatenation. -/
theorem getElem?_batches {α : Type} (m : Nat) (F : List (List α)) :
    ∀ (rest : List α) (i : Nat), (∀ b ∈ F, b.length = m) → i < F.length →
      F[i]? = some (((F.flatten ++ rest).drop (i * m)).take m) := by
  induction F with
  | nil => intro rest i _ hi; simp at hi
  | cons b F ih =>
    intro rest i hall hi
    have hb : b.length = m := hall b (List.mem_cons_self b F)
    cases i with
    | zero =>
      simp only [List.getElem?_cons_zero, Nat.zero_mul, List.drop_zero, List.flatten_cons,
        List.append_assoc]
      rw [List.take_left' hb]
    | succ j =>
      have hj : j < F.length := by simpa using hi
      have hdrop : ((b :: F).flatten ++ rest).drop ((j + 1) * m)
          = (F.flatten ++ rest).drop (j * m) := by
        rw [List.flatten_cons, List.append_assoc, Nat.succ_mul, Nat.add_comm (j * m) m,
          ← List.drop_drop, List.drop_left' hb]
      rw [hdrop, List.getElem?_cons_succ]
      exact ih rest j (fun c hc => hall c (List.mem_cons_of_mem b hc)) hj

/-- Batches of `m` signals followed by fewer than `m` pending signals are determined by the
sequence of signals they make up. -/
theorem batches_of_signals {α : Type} (m : Nat) (F : List (List α)) (p sigs : List α)
    (hall : ∀ b ∈ F, b.length = m) (hp : p.length < m) (hcat : F.flatten ++ p = sigs) :
    F.length = sigs.length / m ∧ p.length = sigs.length % m ∧
      p = sigs.drop (m * (sigs.length / m)) ∧
      ∀ i : Nat, i < sigs.length / m → F[i]? = some ((sigs.drop (i * m)).take m) := by
  have hm : 0 < m := Nat.lt_of_le_of_lt (Nat.zero_le _) hp
  have hlenF := length_flatten_batches m F hall
  have hlen : sigs.length = p.length + m * F.length := by
    rw [← hcat, List.length_append, hlenF, Nat.add_comm]
  have hdiv : sigs.length / m = F.length := by
    rw [hlen, Nat.add_mul_div_left _ _ hm, Nat.div_eq_of_lt hp, Nat.zero_add]
  have hmod : sigs.length % m = p.length := by
    rw [hlen, Nat.add_mul_mod_self_left, Nat.mod_eq_of_lt hp]
  refine ⟨hdiv.symm, hmod.symm, ?_, ?_⟩
  · rw [hdiv, ← hcat, List.drop_left' hlenF]
  · intro i hi
    rw [← hcat]
    exact getElem?_batches m F p i hall (hdiv ▸ hi)

/-- The full batches of a sequence of signals are its blocks of `MAX_BATCH_SIZE` signals. -/
theorem signalBatches_eq (F : List (List String)) (sigs : List String)
    (hlen : F.length = sigs.length / MAX_BATCH_SIZE)
    (hget : ∀ i : Nat, i < sigs.length / MAX_BATCH_SIZE →
      F[i]? = some ((sigs.drop (i * MAX_BATCH_SIZE)).take MAX_BATCH_SIZE)) :
    F = signalBatches sigs := by
  apply List.ext_getElem?
  intro i
  unfold signalBatches
  by_cases hi : i < sigs.length / MAX_BATCH_SIZE
  · rw [hget i hi, List.getElem?_map, List.getElem?_range hi]
    rfl
  · rw [List.getElem?_eq_none (by omega), List.getElem?_eq_none (by simp; omega)]

/-- A signal that does not fill a batch adds no flush. -/
theorem flushEnvs_concat_pending (pre : List (String × (Nat → Env))) (ev : String × (Nat → Env))
    (hmod : (pre.length + 1) % MAX_BATCH_SIZE ≠ 0) :
    flushEnvs (pre ++ [ev]) = flushEnvs pre := by
  have hM : MAX_BATCH_SIZE = 100 := rfl
  rw [hM] at hmod
  unfold flushEnvs
  have hdiv : (pre ++ [ev]).length / MAX_BATCH_SIZE = pre.length / MAX_BATCH_SIZE := by
    rw [List.length_append, List.length_singleton, hM]
    omega
  rw [hdiv]
  apply List.map_congr_left
  intro i hi
  have hi2 : i < pre.length / MAX_BATCH_SIZE := List.mem_range.1 hi
  rw [hM] at hi2
  have hlt : (i + 1) * MAX_BATCH_SIZE - 1 < pre.length := by
    rw [hM]
    omega
  rw [List.getElem?_append_left hlt]

/-- A signal that fills a batch adds one flush, in the environment it came with. -/
theorem flushEnvs_concat_full (pre : List (String × (Nat → Env))) (ev : String × (Nat → Env))
    (hmod : (pre.length + 1) % MAX_BATCH_SIZE = 0) :
    flushEnvs (pre ++ [ev]) = flushEnvs pre ++ [ev.2] := by
  have hM : MAX_BATCH_SIZE = 100 := rfl
  rw [hM] at hmod
  unfold flushEnvs
  have hdiv : (pre ++ [ev]).length / MAX_BATCH_SIZE = pre.length / MAX_BATCH_SIZE + 1 := by
    rw [List.length_append, List.length_singleton, hM]
    omega
  rw [hdiv, List.range_succ, List.map_append]
  congr 1
  · apply List.map_congr_left
    intro i hi
    have hi2 : i < pre.length / MAX_BATCH_SIZE := List.mem_range.1 hi
    rw [hM] at hi2
    have hlt : (i + 1) * MAX_BATCH_SIZE - 1 < pre.length := by
      rw [hM]
      omega
    rw [List.getElem?_append_left hlt]
  · have hidx : (pre.length / MAX_BATCH_SIZE + 1) * MAX_BATCH_SIZE - 1 = pre.length := by
      rw [hM]
      omega
    simp only [List.map_cons, List.map_nil, hidx, List.getElem?_concat_length, Option.map_some',
      Option.getD_some]

/-- Flushing one more batch after the others. -/
theorem applyFlushes_concat (calls : List (List String × (Nat → Env))) (jobs : List String)
    (env : Nat → Env) :
    ∀ w : World, applyFlushes w (calls ++ [(jobs, env)])
      = (applyFlushes w calls).bind fun w1 => (update w1 env jobs).map Prod.snd := by
  induction calls with
  | nil =>
    intro w
    simp only [List.nil_append, applyFlushes, Option.some_bind]
    cases update w env jobs with
    | none => rfl
    | some p => rfl
  | cons c calls ih =>
    intro w
    obtain ⟨b, en⟩ := c
    simp only [List.cons_append, applyFlushes]
    cases update w en b with
    | none => rfl
    | some p => exact ih p.2

/-- Every call of `update` that returns is recorded, whatever it returns. -/
theorem update_recorded (w w1 : World) (env : Nat → Env) (jobs : List String) (err : Option Err)
    (hup : update w env jobs = some (err, w1)) :
    w1.updateCalls = w.updateCalls ++ [jobs] := by
  unfold update at hup
  cases hdb : w.db with
  | none => simp [hdb] at hup
  | some h =>
    simp only [hdb] at hup
    cases htx : updateTx h w env jobs with
    | error e =>
      simp only [htx, Option.some.injEq, Prod.mk.injEq] at hup
      rw [← hup.2]
    | ok tx =>
      simp only [htx] at hup
      cases hco : txCommit tx (env (jobs.length + 1)) with
      | error e =>
        simp only [hco, Option.some.injEq, Prod.mk.injEq] at hup
        rw [← hup.2]
      | ok ts =>
        simp only [hco, Option.some.injEq, Prod.mk.injEq] at hup
        rw [← hup.2]

/-- The calls of `update` made by `applyFlushes` are its batches, one call for each. -/
theorem applyFlushes_recorded (calls : List (List String × (Nat → Env))) :
    ∀ w w1 : World, applyFlushes w calls = some w1 →
      w1.updateCalls = w.updateCalls ++ calls.map Prod.fst := by
  induction calls with
  | nil =>
    intro w w1 hrun
    simp only [applyFlushes, Option.some.injEq] at hrun
    simp [hrun]
  | cons c calls ih =>
    intro w w1 hrun
    obtain ⟨jobs, env⟩ := c
    simp only [applyFlushes] at hrun
    cases hup : update w env jobs with
    | none => simp [hup] at hrun
    | some p =>
      obtain ⟨err, w2⟩ := p
      simp only [hup] at hrun
      rw [ih w2 w1 hrun, update_recorded w w2 env jobs err hup]
      simp

/-- One iteration of the worker on a batch that is not full: the signal joins the batch;
when it fills the batch, the worker calls `update` on the batch in the environment that
came with the signal, keeps the world the call leaves whatever its error, and empties the
batch. -/
theorem workerStep_spec (s : Worker) (job : String) (env : Nat → Env) (h : Handle)
    (hdb : s.world.db = some h) (hlt : s.jobs.length < MAX_BATCH_SIZE) :
    ∃ s1 : Worker, workerStep s job env = some s1 ∧ s1.world.db = some h ∧
      s1.jobs.length < MAX_BATCH_SIZE ∧
      (((s.jobs ++ [job]).length < MAX_BATCH_SIZE ∧ s1.jobs = s.jobs ++ [job] ∧
          s1.flushed = s.flushed ∧ s1.world = s.world) ∨
       ((s.jobs ++ [job]).length = MAX_BATCH_SIZE ∧ s1.jobs = [] ∧
        s1.flushed = s.flushed ++ [s.jobs ++ [job]] ∧
        (update s.world env (s.jobs ++ [job])).map Prod.snd = some s1.world)) := by
  unfold workerStep
  by_cases hfull : (s.jobs ++ [job]).length ≥ MAX_BATCH_SIZE
  · obtain ⟨err, w1, hup, hdb1⟩ := update_keeps_db s.world h env (s.jobs ++ [job]) hdb
    have hlen : (s.jobs ++ [job]).length = MAX_BATCH_SIZE := by
      simp only [List.length_append, List.length_singleton] at hfull ⊢
      omega
    refine ⟨⟨[], w1, s.flushed ++ [s.jobs ++ [job]]⟩, ?_, hdb1,
      by simp [MAX_BATCH_SIZE], Or.inr ⟨hlen, rfl, rfl, by rw [hup]; rfl⟩⟩
    simp only [hfull, if_true, hup]
  · refine ⟨{ s with jobs := s.jobs ++ [job] }, ?_, hdb, ?_,
      Or.inl ⟨Nat.lt_of_not_le hfull, rfl, rfl, rfl⟩⟩
    · simp only [hfull, if_false]
    · exact Nat.lt_of_not_le hfull

/-- Invariant of the loop of `heartbeatWorker`, started in the world `w0`: every flushed
batch has `MAX_BATCH_SIZE` signals, the pending batch has fewer, the flushed batches
followed by the pending one are the signals received so far, and the world is the one left
by the calls of `update` on the flushed batches, in order. -/
theorem worker_loop (w0 : World) (h : Handle) (events : List (String × (Nat → Env))) :
    ∀ (pre : List (String × (Nat → Env))) (s : Worker), s.world.db = some h →
      s.jobs.length < MAX_BATCH_SIZE →
      (∀ b ∈ s.flushed, b.length = MAX_BATCH_SIZE) →
      s.flushed.flatten ++ s.jobs = pre.map Prod.fst →
      applyFlushes w0 (s.flushed.zip (flushEnvs pre)) = some s.world →
      ∃ s1 : Worker, events.foldlM (fun s ev => workerStep s ev.1 ev.2) s = some s1 ∧
        s1.world.db = some h ∧ s1.jobs.length < MAX_BATCH_SIZE ∧
        (∀ b ∈ s1.flushed, b.length = MAX_BATCH_SIZE) ∧
        s1.flushed.flatten ++ s1.jobs = (pre ++ events).map Prod.fst ∧
        applyFlushes w0 (s1.flushed.zip (flushEnvs (pre ++ events))) = some s1.world := by
  have hM : MAX_BATCH_SIZE = 100 := rfl
  induction events with
  | nil =>
    intro pre s hdb hlt hall hcat hworld
    exact ⟨s, rfl, hdb, hlt, hall, by simpa using hcat, by simpa using hworld⟩
  | cons ev events ih =>
    intro pre s hdb hlt hall hcat hworld
    obtain ⟨hF, hJ, _, _⟩ :=
      batches_of_signals MAX_BATCH_SIZE s.flushed s.jobs (pre.map Prod.fst) hall hlt hcat
    rw [List.length_map] at hF hJ
    obtain ⟨s1, hstep, hdb1, hlt1, hcase⟩ := workerStep_spec s ev.1 ev.2 h hdb hlt
    have hall1 : ∀ b ∈ s1.flushed, b.length = MAX_BATCH_SIZE := by
      rcases hcase with ⟨_, _, hf, _⟩ | ⟨hlen, _, hf, _⟩
      · rw [hf]; exact hall
      · rw [hf]
        intro b hb
        rcases List.mem_append.1 hb with hb | hb
        · exact hall b hb
        · rw [List.mem_singleton.1 hb]; exact hlen
    have hcat1 : s1.flushed.flatten ++ s1.jobs = (pre ++ [ev]).map Prod.fst := by
      rcases hcase with ⟨_, hj, hf, _⟩ | ⟨_, hj, hf, _⟩
      · rw [hj, hf, ← List.append_assoc, hcat]; simp
      · rw [hj, hf]
        simp only [List.flatten_append, List.flatten_cons, List.flatten_nil, List.append_nil,
          List.map_append, List.map_cons, List.map_nil]
        rw [← List.append_assoc, hcat]
    have hworld1 : applyFlushes w0 (s1.flushed.zip (flushEnvs (pre ++ [ev]))) = some s1.world := by
      rcases hcase with ⟨hlen, _, hf, hw⟩ | ⟨hlen, _, hf, hw⟩
      · have hmod : (pre.length + 1) % MAX_BATCH_SIZE ≠ 0 := by
          rw [List.length_append, List.length_singleton] at hlen
          rw [hM] at hlen hJ ⊢
          omega
        rw [flushEnvs_concat_pending pre ev hmod, hf, hw]
        exact hworld
      · have hmod : (pre.length + 1) % MAX_BATCH_SIZE = 0 := by
          rw [List.length_append, List.length_singleton] at hlen
          rw [hM] at hlen hJ ⊢
          omega
        have hlenE : s.flushed.length = (flushEnvs pre).length := by
          rw [hF]
          simp [flushEnvs]
        rw [flushEnvs_concat_full pre ev hmod, hf, List.zip_append hlenE]
        simp only [List.zip_cons_cons, List.zip_nil_right]
        rw [applyFlushes_concat, hworld, Option.some_bind]
        exact hw
    obtain ⟨s2, hrun, hdb2, hlt2, hall2, hcat2, hworld2⟩ :=
      ih (pre ++ [ev]) s1 hdb1 hlt1 hall1 hcat1 hworld1
    refine ⟨s2, ?_, hdb2, hlt2, hall2, ?_, ?_⟩
    · simp only [List.foldlM_cons, hstep, Option.bind_eq_bind, Option.some_bind]
      exact hrun
    · simpa using hcat2
    · simpa using hworld2

/-- C9: with `db` set, the worker that has received `k` signals, starting from an empty
batch, has made `k / MAX_BATCH_SIZE` calls to `update`; call number `i`, counted from 0, was
given the signals at positions `i * MAX_BATCH_SIZE` to `(i + 1) * MAX_BATCH_SIZE - 1` in
arrival order; the world is the one these calls leave, made in this order, each in the
environment that came with the signal that filled its batch, and it records these calls
of `update` and no other; the pending batch holds the
last `k % MAX_BATCH_SIZE` signals, fewer than `MAX_BATCH_SIZE`.  Every flushed batch is
full: a batch with fewer than `MAX_BATCH_SIZE` signals is never flushed.  The environments
are arbitrary, so this holds whether a flush fails or succeeds: two runs on the same
signals flush the same batches and hold the same pending batch whatever their flushes
returned. -/
theorem heartbeatWorker_batches (w : World) (h : Handle) (events : List (String × (Nat → Env)))
    (hdb : w.db = some h) :
    ∃ s : Worker, heartbeatWorker w events = some s ∧
      s.flushed.length = events.length / MAX_BATCH_SIZE ∧
      (∀ i : Nat, i < events.length / MAX_BATCH_SIZE →
        s.flushed[i]? =
          some (((events.map Prod.fst).drop (i * MAX_BATCH_SIZE)).take MAX_BATCH_SIZE)) ∧
      s.flushed = signalBatches (events.map Prod.fst) ∧
      applyFlushes w ((signalBatches (events.map Prod.fst)).zip (flushEnvs events))
        = some s.world ∧
      s.world.updateCalls = w.updateCalls ++ signalBatches (events.map Prod.fst) ∧
      s.jobs = (events.map Prod.fst).drop (MAX_BATCH_SIZE * (events.length / MAX_BATCH_SIZE)) ∧
      s.jobs.length = events.length % MAX_BATCH_SIZE ∧
      s.jobs.length < MAX_BATCH_SIZE ∧
      (∀ b ∈ s.flushed, b.length = MAX_BATCH_SIZE) ∧
      (∀ (events2 : List (String × (Nat → Env))) (s2 : Worker),
        events2.map Prod.fst = events.map Prod.fst → heartbeatWorker w events2 = some s2 →
        s2.flushed = s.flushed ∧ s2.jobs = s.jobs) := by
  have hrun : ∀ evs : List (String × (Nat → Env)),
      ∃ s : Worker, heartbeatWorker w evs = some s ∧
        s.flushed.length = (evs.map Prod.fst).length / MAX_BATCH_SIZE ∧
        s.jobs.length = (evs.map Prod.fst).length % MAX_BATCH_SIZE ∧
        s.jobs = (evs.map Prod.fst).drop
          (MAX_BATCH_SIZE * ((evs.map Prod.fst).length / MAX_BATCH_SIZE)) ∧
        (∀ i : Nat, i < (evs.map Prod.fst).length / MAX_BATCH_SIZE →
          s.flushed[i]? =
            some (((evs.map Prod.fst).drop (i * MAX_BATCH_SIZE)).take MAX_BATCH_SIZE)) ∧
        s.jobs.length < MAX_BATCH_SIZE ∧ (∀ b ∈ s.flushed, b.length = MAX_BATCH_SIZE) ∧
        applyFlushes w (s.flushed.zip (flushEnvs evs)) = some s.world := by
    intro evs
    obtain ⟨s, hs, _, hlt, hall, hcat, hworld⟩ :=
      worker_loop w h evs [] ⟨[], w, []⟩ hdb (by simp [MAX_BATCH_SIZE]) (by simp) (by simp) rfl
    have hcat2 : s.flushed.flatten ++ s.jobs = evs.map Prod.fst := by simpa using hcat
    obtain ⟨h1, h2, h3, h4⟩ :=
      batches_of_signals MAX_BATCH_SIZE s.flushed s.jobs (evs.map Prod.fst) hall hlt hcat2
    exact ⟨s, hs, h1, h2, h3, h4, hlt, hall, by simpa using hworld⟩
  obtain ⟨s, hs, h1, h2, h3, h4, hlt, hall, hworld⟩ := hrun events
  have hsb : s.flushed = signalBatches (events.map Prod.fst) :=
    signalBatches_eq s.flushed (events.map Prod.fst) h1 h4
  have hcalls : s.world.updateCalls = w.updateCalls ++ signalBatches (events.map Prod.fst) := by
    rw [applyFlushes_recorded _ w s.world hworld, List.map_fst_zip, hsb]
    rw [List.length_map] at h1
    simp [flushEnvs, h1]
  rw [List.length_map] at h1 h2 h3 h4
  refine ⟨s, hs, h1, h4, hsb, by rw [← hsb]; exact hworld, hcalls, h3, h2, hlt, hall, ?_⟩
  intro events2 s2 hsame hs2
  obtain ⟨s3, hs3, g1, g2, g3, g4, _, _, _⟩ := hrun events2
  rw [hs2, Option.some.injEq] at hs3
  subst hs3
  have gsb : s2.flushed = signalBatches (events2.map Prod.fst) :=
    signalBatches_eq s2.flushed (events2.map Prod.fst) g1 g4
  rw [hsame] at gsb g3
  rw [List.length_map] at g3
  exact ⟨by rw [gsb, hsb], by rw [g3, h3]⟩

set_option maxRecDepth 1000000 in
/-- C9 at 250 signals of `"a"` whose first flush goes through at time 7 and whose second
flush fails: the row of `"a"` carries the time of the first flush. -/
theorem heartbeatWorker_batches_witness :
    (∃ s : Worker, heartbeatWorker (hall [⟨"a", "c", 0⟩]) beats = some s ∧
      s.flushed.length = beats.length / MAX_BATCH_SIZE ∧
      (∀ i : Nat, i < beats.length / MAX_BATCH_SIZE →
        s.flushed[i]? =
          some (((beats.map Prod.fst).drop (i * MAX_BATCH_SIZE)).take MAX_BATCH_SIZE)) ∧
      s.flushed = signalBatches (beats.map Prod.fst) ∧
      applyFlushes (hall [⟨"a", "c", 0⟩]) ((signalBatches (beats.map Prod.fst)).zip (flushEnvs beats))
        = some s.world ∧
      s.world.updateCalls
        = (hall [⟨"a", "c", 0⟩]).updateCalls ++ signalBatches (beats.map Prod.fst) ∧
      s.jobs = (beats.map Prod.fst).drop (MAX_BATCH_SIZE * (beats.length / MAX_BATCH_SIZE)) ∧
      s.jobs.length = beats.length % MAX_BATCH_SIZE ∧
      s.jobs.length < MAX_BATCH_SIZE ∧
      (∀ b ∈ s.flushed, b.length = MAX_BATCH_SIZE) ∧
      (∀ (events2 : List (String × (Nat → Env))) (s2 : Worker),
        events2.map Prod.fst = beats.map Prod.fst →
        heartbeatWorker (hall [⟨"a", "c", 0⟩]) events2 = some s2 →
        s2.flushed = s.flushed ∧ s2.jobs = s.jobs)) ∧
    (heartbeatWorker (hall [⟨"a", "c", 0⟩]) beats).bind (fun s => s.world.tables "hall_")
      = some [⟨"a", "c", 7⟩] ∧
    (heartbeatWorker (hall [⟨"a", "c", 0⟩]) beats).map (fun s => s.jobs.length) = some 50 ∧
    (heartbeatWorker (hall [⟨"a", "c", 0⟩]) beats).map (fun s => s.world.updateCalls.length)
      = some 2 :=
  ⟨heartbeatWorker_batches (hall [⟨"a", "c", 0⟩]) ⟨"dsn", false⟩ beats rfl,
    by decide, by decide, by decide⟩

end Tihall
